import Mathlib

/-!
Verification development for the memori-js Attributed Memory Fabric.

This file gives a shallow embedding, in Lean 4, of the parts of the
repository that the specification talks about:

* the SQLite-backed vector store (`src/stores/sqlite.ts`, `SqliteVecStore`):
  the `memories` metadata table, the `vec_memories` virtual vector table,
  the transactional `insert`, the KNN `search` with attribution filters,
  and `delete` with its cleanup trigger;
* the Postgres-backed vector store (`src/stores/postgres.ts`,
  `PostgresVecStore`): single-table insert, filtered ordered-limit search,
  delete;
* the orchestrator (`src/core/memory.ts`, class `Memori`): the CLaRa
  compression stage of `addMemory`, the reasoning stage of
  `retrieveContext`, `search`, error degradation, and statistics;
* the background write queue (`queueMemory` / `augmentation.wait`),
  modelled as a small labelled transition system over the
  `pendingPromises` array.

JavaScript numbers are modelled as `Rat`; record ids, which the source
renders as the decimal string of the underlying auto-increment row id,
are modelled as the row id itself (`Nat`), since decimal rendering is
injective.  The similarity metric is backend-defined (sqlite-vec L2,
pgvector cosine), so search is parameterised over an arbitrary distance
function `dist : Vector → Vector → Rat`.
-/

/-- A JavaScript value stored in a metadata map: a string, a boolean, or
`null`/absent-like values.  Only these shapes occur in the repository. -/
inductive MValue where
  | str (s : String)
  | bool (b : Bool)
  | null
deriving DecidableEq, Repr

/-- A JavaScript metadata object, modelled as an association list with
first-key-wins lookup (source objects never carry duplicate keys). -/
abbrev Metadata : Type := List (String × MValue)

/-- Property access `md.k` on a metadata object. -/
def mdLookup (md : Metadata) (k : String) : Option MValue :=
  (List.find? (fun p => p.1 == k) md).map (fun p => p.2)

/-- JavaScript truthiness of an optional metadata value, specialised to
strings: `undefined`, `null`, non-strings and `""` are falsy.  Used to
model `metadata?.field || fallback`. -/
def truthyStr : Option MValue → Option String
  | some (MValue.str s) => if s = "" then none else some s
  | _ => none

/-- JavaScript truthiness of an optional string (for filter fields):
`undefined` and `""` are falsy. -/
def truthyOpt : Option String → Option String
  | some s => if s = "" then none else some s
  | none => none

/-- Source expression `metadata?.role || "user"` in `SqliteVecStore.insert`. -/
def mdRole (md : Metadata) : String :=
  (truthyStr (mdLookup md "role")).getD "user"

/-- Source expression `metadata?.entityId || null` (and likewise for the other attribution
fields) in `SqliteVecStore.insert`. -/
def mdAttr (md : Metadata) (k : String) : Option String :=
  truthyStr (mdLookup md k)

/-- An embedding vector (JS `number[]`, numbers as `Rat`). -/
abbrev Vec : Type := List Rat

/-- The `MemoryFilter` interface from `src/core/types.ts`: optional exact-match
attribution filters. -/
structure MemoryFilter where
  entityId : Option String := none
  processId : Option String := none
  sessionId : Option String := none
deriving DecidableEq, Repr

/-- The `MemoryResult` interface from `src/core/types.ts`.  The source renders `id` as
the decimal string of the row id; we keep the row id itself. -/
structure MemoryResult where
  id : Nat
  content : String
  embedding : Vec
  metadata : Metadata
  distance : Rat
deriving DecidableEq

/-- A row of the `memories` relational table of `SqliteVecStore`. -/
structure MemRow where
  rowid : Nat
  content : String
  role : String
  entityId : Option String
  processId : Option String
  sessionId : Option String
  createdAt : String
deriving DecidableEq, Repr

/-- The observable state of a `SqliteVecStore`.

`dim` is the declared dimension of the `vec_memories float[dim]` column.
Modelled from the spec: the drafts of `src/stores/sqlite.ts` present in
the repository hard-code `float[768]` and a two-argument constructor,
while every caller (`new SqliteVecStore(config.dbPath, this.logger, dim)`
in `src/core/memory.ts`) and the configuration documentation pass the
`embeddingDimension` as a third constructor argument; the final store
with the dimension fixed per instance at construction is missing from
the sources, so its dimension parameter is modelled here from the spec
("dimensionality fixed per store instance at construction").  With
`dim = 768` this state is exactly the store of the committed drafts.

`nextRowid` is the `AUTOINCREMENT` counter backing `memories.rowid`
(`sqlite_sequence`): it starts at 1, grows on every committed insert,
is rolled back with a failed transaction, and is never decreased by
`DELETE`, so committed row ids are never reused. -/
structure SqliteState where
  dim : Nat
  nextRowid : Nat
  memories : List MemRow
  vec : List (Nat × Vec)
deriving DecidableEq

/-- The `init()` of `SqliteVecStore`: fresh empty schema. -/
def sqliteInit (dim : Nat) : SqliteState :=
  { dim := dim, nextRowid := 1, memories := [], vec := [] }

/-- Injected backend failure points inside the `insert` transaction of
`SqliteVecStore.insert`: the metadata `INSERT` callback erroring, the
vector `INSERT` callback erroring, or the `COMMIT` erroring. -/
inductive InsertFault where
  | metaFail
  | vecFail
  | commitFail
deriving DecidableEq, Repr

/-- Models `SqliteVecStore.insert(content, embedding, metadata)`.

Mirrors the transaction in the source: `BEGIN`; insert the metadata row
(on error `ROLLBACK` and reject `VectorStoreError("Failed to insert
metadata")`); insert the vector row keyed by the same rowid — sqlite-vec
rejects a blob whose size differs from the declared `float[dim]` column,
which is also where an injected `vecFail` lands (`ROLLBACK`, reject
`"Failed to insert embeddings"`); `COMMIT` (on error reject, nothing
committed).  On success both rows are committed and the new rowid is
resolved.  The error value is the `VectorStoreError` message; an error
means the transaction was rolled back, so no intermediate state escapes.
`now` is the database clock supplying `created_at DEFAULT
CURRENT_TIMESTAMP`. -/
def sqliteInsert (st : SqliteState) (content : String) (embedding : Vec)
    (md : Metadata) (now : String) (fault : Option InsertFault) :
    Except String (SqliteState × Nat) :=
  if fault = some InsertFault.metaFail then
    Except.error "Failed to insert metadata"
  else
    let rowid := st.nextRowid
    let row : MemRow :=
      { rowid := rowid, content := content, role := mdRole md,
        entityId := mdAttr md "entityId", processId := mdAttr md "processId",
        sessionId := mdAttr md "sessionId", createdAt := now }
    let stMeta : SqliteState :=
      { st with memories := st.memories ++ [row], nextRowid := rowid + 1 }
    if fault = some InsertFault.vecFail ∨ List.length embedding ≠ st.dim then
      Except.error "Failed to insert embeddings"
    else
      let stVec : SqliteState := { stMeta with vec := stMeta.vec ++ [(rowid, embedding)] }
      if fault = some InsertFault.commitFail then
        Except.error "Failed to commit transaction"
      else
        Except.ok (stVec, rowid)

/-- Models `SqliteVecStore.delete(id)`: `DELETE FROM memories WHERE rowid = ?`;
the `delete_vec_memory` trigger then removes the `vec_memories` row of
every deleted metadata row. -/
def sqliteDelete (st : SqliteState) (id : Nat) : SqliteState :=
  let deleted := List.filter (fun m => m.rowid == id) st.memories
  { st with
    memories := List.filter (fun m => ¬ m.rowid == id) st.memories,
    vec := List.filter (fun p => ¬ (List.any deleted (fun m => m.rowid == p.1))) st.vec }

/-- The `JOIN memories m ON v.rowid = m.rowid` of the search query:
each vector row paired with its metadata row. -/
def joinRows (st : SqliteState) : List (MemRow × Vec) :=
  List.filterMap
    (fun rv => (List.find? (fun m => m.rowid == rv.1) st.memories).map (fun m => (m, rv.2)))
    st.vec

/-- The `AND m.entity_id = ?`-style clauses appended by
`SqliteVecStore.search`: a clause is added only for a truthy filter
field (`if (filter?.entityId)`), and matching is SQL equality against
the row column (a `NULL` column never matches). -/
def matchesFilter (f : MemoryFilter) (m : MemRow) : Bool :=
  (match truthyOpt f.entityId with
    | none => true
    | some v => m.entityId == some v) &&
  (match truthyOpt f.processId with
    | none => true
    | some v => m.processId == some v) &&
  (match truthyOpt f.sessionId with
    | none => true
    | some v => m.sessionId == some v)

/-- The metadata object of one SQLite search result, built field by field
in the row mapping of `SqliteVecStore.search`. -/
def sqliteResultMeta (m : MemRow) : Metadata :=
  [("role", MValue.str m.role),
   ("created_at", MValue.str m.createdAt),
   ("entityId", match m.entityId with | some s => MValue.str s | none => MValue.null),
   ("processId", match m.processId with | some s => MValue.str s | none => MValue.null),
   ("sessionId", match m.sessionId with | some s => MValue.str s | none => MValue.null)]

/-- The row mapping of `SqliteVecStore.search`: embedding deliberately
left empty by the source ("save bandwidth"). -/
def sqliteToResult (dist : Vec → Vec → Rat) (q : Vec) (p : MemRow × Vec) : MemoryResult :=
  { id := p.1.rowid, content := p.1.content, embedding := [],
    metadata := sqliteResultMeta p.1, distance := dist q p.2 }

/-- Ascending-distance comparison used to model `ORDER BY distance`. -/
def distLE (dist : Vec → Vec → Rat) (q : Vec) (a b : MemRow × Vec) : Prop :=
  dist q a.2 ≤ dist q b.2

instance (dist : Vec → Vec → Rat) (q : Vec) : DecidableRel (distLE dist q) :=
  fun a b => inferInstanceAs (Decidable (dist q a.2 ≤ dist q b.2))

/-- The KNN pass of the search query: `v.embedding MATCH ? AND k = ?`
against the `vec0` virtual table returns the `limit` nearest rows of the
whole vector table — sqlite-vec evaluates the KNN constraint on the
virtual table alone, before the join with `memories` and before any of
the appended attribution clauses are applied. -/
def sqliteKnn (st : SqliteState) (dist : Vec → Vec → Rat) (q : Vec) (limit : Nat) :
    List (MemRow × Vec) :=
  List.take limit (List.insertionSort (distLE dist q) (joinRows st))

/-- Models `SqliteVecStore.search(embedding, limit, filter)`: the `limit`
nearest rows overall, then the attribution filters, then the row
mapping; `ORDER BY v.distance` keeps the KNN order, which is already
ascending. -/
def sqliteSearch (st : SqliteState) (dist : Vec → Vec → Rat) (q : Vec) (limit : Nat)
    (f : MemoryFilter) : List MemoryResult :=
  List.map (sqliteToResult dist q)
    (List.filter (fun p => matchesFilter f p.1) (sqliteKnn st dist q limit))

/-- One call against a `SqliteVecStore`, for reachability traces:
an `insert` (with its clock value and injected backend faults) or a
`delete`. -/
inductive SOp where
  | ins (content : String) (embedding : Vec) (md : Metadata) (now : String)
      (fault : Option InsertFault)
  | del (id : Nat)

/-- Observable effect of one store call: the committed state afterwards
and the id returned to the caller (inserts only, and only on success —
a rejected insert rolled back and returned nothing). -/
def sqliteStep (st : SqliteState) : SOp → SqliteState × Option Nat
  | SOp.ins c e md now fault =>
      match sqliteInsert st c e md now fault with
      | Except.ok (st1, id) => (st1, some id)
      | Except.error _ => (st, none)
  | SOp.del id => (sqliteDelete st id, none)

/-- Run a sequence of store calls, collecting every id returned to a
caller. -/
def sqliteRun (st : SqliteState) : List SOp → SqliteState × List Nat
  | [] => (st, [])
  | op :: ops =>
      let r := sqliteStep st op
      let rest := sqliteRun r.1 ops
      (rest.1, (match r.2 with | some id => [id] | none => []) ++ rest.2)

/-- A row of the single Postgres table of `PostgresVecStore`: content,
the full metadata document (`metadata JSONB`), the vector, and the
explicitly denormalised attribution columns. -/
structure PgRow where
  id : Nat
  content : String
  metadata : Metadata
  embedding : Vec
  entityId : Option String
  processId : Option String
  sessionId : Option String
  createdAt : String
deriving DecidableEq

/-- Observable state of a `PostgresVecStore`: the declared
`vector(dim)` column dimension and the rows; `nextId` is the `SERIAL`
sequence, monotone and never reset by `DELETE`. -/
structure PgState where
  dim : Nat
  nextId : Nat
  rows : List PgRow
deriving DecidableEq

/-- Models `PostgresVecStore.init()` against an empty database. -/
def pgInit (dim : Nat) : PgState :=
  { dim := dim, nextId := 1, rows := [] }

/-- Plain JS destructuring `const { entityId } = metadata`: the string
value if the key holds one (no truthiness coercion), else absent. -/
def mdGetStr (md : Metadata) (k : String) : Option String :=
  match mdLookup md k with
  | some (MValue.str s) => some s
  | _ => none

/-- Models `PostgresVecStore.insert(content, embedding, metadata)`: one
`INSERT ... RETURNING id` statement, hence atomic by itself; the whole
metadata document is persisted in the `JSONB` column, and the
attribution fields are copied into their own columns.  The `vector(dim)`
column rejects a vector of any other dimensionality, and `fault` injects
any other backend failure; in both cases the statement fails as a whole,
the store is unchanged and a `VectorStoreError` is raised. -/
def pgInsert (st : PgState) (content : String) (embedding : Vec) (md : Metadata)
    (now : String) (fault : Bool) : Except String (PgState × Nat) :=
  if fault ∨ List.length embedding ≠ st.dim then
    Except.error "Failed to insert memory into Postgres"
  else
    let id := st.nextId
    let row : PgRow :=
      { id := id, content := content, metadata := md, embedding := embedding,
        entityId := mdGetStr md "entityId", processId := mdGetStr md "processId",
        sessionId := mdGetStr md "sessionId", createdAt := now }
    Except.ok ({ st with rows := st.rows ++ [row], nextId := id + 1 }, id)

/-- Models `PostgresVecStore.delete(id)`: `DELETE ... WHERE id = $1`. -/
def pgDelete (st : PgState) (id : Nat) : PgState :=
  { st with rows := List.filter (fun r => ¬ r.id == id) st.rows }

/-- The `AND entity_id = $k` clauses of `PostgresVecStore.search`,
appended only for truthy filter fields, SQL equality against the
column. -/
def pgMatches (f : MemoryFilter) (r : PgRow) : Bool :=
  (match truthyOpt f.entityId with
    | none => true
    | some v => r.entityId == some v) &&
  (match truthyOpt f.processId with
    | none => true
    | some v => r.processId == some v) &&
  (match truthyOpt f.sessionId with
    | none => true
    | some v => r.sessionId == some v)

/-- Ascending-distance comparison on Postgres rows. -/
def pgDistLE (dist : Vec → Vec → Rat) (q : Vec) (a b : PgRow) : Prop :=
  dist q a.embedding ≤ dist q b.embedding

instance (dist : Vec → Vec → Rat) (q : Vec) : DecidableRel (pgDistLE dist q) :=
  fun a b => inferInstanceAs (Decidable (dist q a.embedding ≤ dist q b.embedding))

/-- JS object spread override `{...md, k: v}` for one key. -/
def mdSet (md : Metadata) (k : String) (v : MValue) : Metadata :=
  List.filter (fun p => ¬ p.1 == k) md ++ [(k, v)]

/-- The `null`-aware column value for a result metadata field. -/
def optMV : Option String → MValue
  | some s => MValue.str s
  | none => MValue.null

/-- The row mapping of `PostgresVecStore.search`:
`{...row.metadata, created_at, entityId, processId, sessionId}`. -/
def pgToResult (dist : Vec → Vec → Rat) (q : Vec) (r : PgRow) : MemoryResult :=
  { id := r.id, content := r.content, embedding := [],
    metadata :=
      mdSet (mdSet (mdSet (mdSet r.metadata "created_at" (MValue.str r.createdAt))
        "entityId" (optMV r.entityId)) "processId" (optMV r.processId))
        "sessionId" (optMV r.sessionId),
    distance := dist q r.embedding }

/-- Models `PostgresVecStore.search(embedding, limit, filter)`: the `WHERE`
clause narrows the candidate set by the attribution filters first, then
`ORDER BY distance ASC LIMIT $2` ranks the surviving rows and keeps the
`limit` nearest of them. -/
def pgSearch (st : PgState) (dist : Vec → Vec → Rat) (q : Vec) (limit : Nat)
    (f : MemoryFilter) : List MemoryResult :=
  List.map (pgToResult dist q)
    (List.take limit
      (List.insertionSort (pgDistLE dist q) (List.filter (pgMatches f) st.rows)))

/-- One call against a `PostgresVecStore`, for reachability traces. -/
inductive PgOp where
  | ins (content : String) (embedding : Vec) (md : Metadata) (now : String) (fault : Bool)
  | del (id : Nat)

/-- Observable effect of one Postgres store call. -/
def pgStep (st : PgState) : PgOp → PgState × Option Nat
  | PgOp.ins c e md now fault =>
      match pgInsert st c e md now fault with
      | Except.ok (st1, id) => (st1, some id)
      | Except.error _ => (st, none)
  | PgOp.del id => (pgDelete st id, none)

/-- Run a sequence of Postgres store calls, collecting returned ids. -/
def pgRun (st : PgState) : List PgOp → PgState × List Nat
  | [] => (st, [])
  | op :: ops =>
      let r := pgStep st op
      let rest := pgRun r.1 ops
      (rest.1, (match r.2 with | some id => [id] | none => []) ++ rest.2)

/-- The generation collaborator contract `{ generate: (prompt) =>
Promise<string> }`: a prompt either yields text or throws. -/
abbrev Gen : Type := String → Except Unit String

/-- The `ClaraConfig` interface from `src/core/memory.ts`. -/
structure ClaraConfig where
  enableCompression : Bool := false
  enableReasoning : Bool := false
  compressorPrompt : Option String := none
  reasoningPrompt : Option String := none
  compressor : Option Gen := none

/-- The embedding collaborator contract `embed(text) → vector`. -/
abbrev Emb : Type := String → Except Unit Vec

/-- The mutable state of a `Memori` instance that the claims touch:
the default SQLite store, the attribution context, and the CLaRa
configuration (`claraConfig` is set iff the `clara` option was passed;
`internalLLM` is set iff both `clara` and `llm` were passed). -/
structure MemoriState where
  db : SqliteState
  entityId : Option String := none
  processId : Option String := none
  claraConfig : Option ClaraConfig := none
  internalLLM : Option Gen := none

/-- The constructor warning of the CLaRa setup block: exactly one
warning ("CLaRa is enabled but no llm provider was passed in options")
is logged, at configuration time, when `clara` is configured without an
`llm` provider. -/
def claraSetupWarningCount (clara : Option ClaraConfig) (llm : Option Gen) : Nat :=
  if clara.isSome ∧ llm.isNone then 1 else 0

/-- Truthy read of a `claraConfig?.flag` boolean gate. -/
def claraFlag (m : MemoriState) (f : ClaraConfig → Bool) : Bool :=
  match m.claraConfig with
  | some cfg => f cfg
  | none => false

/-- The guard of the compression stage in `addMemory`:
`if (this.claraConfig?.enableCompression && this.internalLLM)`. -/
def compressionGate (m : MemoriState) : Bool :=
  claraFlag m (fun cfg => cfg.enableCompression) && m.internalLLM.isSome

/-- The guard of the reasoning stage in `retrieveContext`:
`if (this.claraConfig?.enableReasoning && this.internalLLM)`. -/
def reasoningGate (m : MemoriState) : Bool :=
  claraFlag m (fun cfg => cfg.enableReasoning) && m.internalLLM.isSome

/-- The fixed compression instruction of `compressContent`. -/
def defaultCompressorInstruction : String :=
  "Compress the following text into a concise, dense set of facts. Preserve all key entities, dates, and numbers. Remove fluff."

/-- The compression prompt: `instruction + "\n\nText:\n" + content`
with `instruction = this.claraConfig?.compressorPrompt || default`. -/
def compressionPrompt (m : MemoriState) (content : String) : String :=
  let instruction :=
    (truthyOpt (m.claraConfig.bind (fun cfg => cfg.compressorPrompt))).getD
      defaultCompressorInstruction
  instruction ++ "\n\nText:\n" ++ content

/-- Collaborator selected by `compressContent`:
`this.claraConfig?.compressor || this.internalLLM`. -/
def compressionGenerator (m : MemoriState) : Option Gen :=
  match m.claraConfig.bind (fun cfg => cfg.compressor) with
  | some g => some g
  | none => m.internalLLM

/-- Models `Memori.compressContent(content)`: with no generator at all the
original content is returned unchanged; otherwise the selected
generator is invoked on the compression prompt (its exception
propagates to the caller of `compressContent`). -/
def compressContent (m : MemoriState) (content : String) : Except Unit String :=
  match compressionGenerator m with
  | none => Except.ok content
  | some g => g (compressionPrompt m content)

/-- The default reasoning prompt of `enhanceQuery`, embedding the raw
query. -/
def defaultReasoningPrompt (query : String) : String :=
  "You are an AI memory optimizer. The user is asking: \"" ++ query ++
  "\".\nGenerate 3-5 specific keywords, hypothetical facts, or a rephrased query that would best help retrieve the answer from a vector database. Output ONLY the search terms/query."

/-- Models `Memori.enhanceQuery(query)`: without a primary collaborator the
query is returned unchanged; otherwise the primary collaborator is
invoked on `this.claraConfig?.reasoningPrompt || default`. -/
def enhanceQuery (m : MemoriState) (query : String) : Except Unit String :=
  match m.internalLLM with
  | none => Except.ok query
  | some g =>
      g ((truthyOpt (m.claraConfig.bind (fun cfg => cfg.reasoningPrompt))).getD
          (defaultReasoningPrompt query))

/-- The base metadata of `addMemory`:
`{ role, entityId: this.entityId || undefined, processId: this.processId || undefined }`. -/
def baseMetadata (m : MemoriState) (role : String) : Metadata :=
  [("role", MValue.str role)] ++
  (match truthyOpt m.entityId with
    | some e => [("entityId", MValue.str e)]
    | none => []) ++
  (match truthyOpt m.processId with
    | some p => [("processId", MValue.str p)]
    | none => [])

/-- The compression stage of `addMemory` (its first half): computes the
content actually embedded/indexed and the metadata map handed to
`db.insert`.  When the gate passes and the collaborator returns
non-empty text, the compressed text replaces the content and
`original_content` / `is_compressed` are added to the metadata (the
keys the spec names `originalContent` / `isCompressed`); when the
collaborator throws or returns `""`, or when the gate fails, the
original content is used with the base metadata only. -/
def addMemoryPayload (m : MemoriState) (content role : String) : String × Metadata :=
  if compressionGate m then
    match compressContent m content with
    | Except.ok compressed =>
        if compressed ≠ "" then
          (compressed,
           baseMetadata m role ++
             [("original_content", MValue.str content),
              ("is_compressed", MValue.bool true)])
        else (content, baseMetadata m role)
    | Except.error _ => (content, baseMetadata m role)
  else (content, baseMetadata m role)

/-- Warnings logged by one `addMemory` call: the `catch` of the
compression stage logs "Memory compression failed, using original"
exactly when the gate passed and the collaborator threw. -/
def addMemoryWarningCount (m : MemoriState) (content : String) : Nat :=
  if compressionGate m ∧ (compressContent m content).isOk = false then 1 else 0

/-- Failures surfaced by `addMemory`: the embedding collaborator
(`EmbeddingError`) and the store (`VectorStoreError` message). -/
inductive AddErr where
  | embedding
  | store (msg : String)
deriving DecidableEq, Repr

/-- Models `Memori.addMemory(content, role)` over the default SQLite store:
compression stage, then `getEmbedding(contentToEmbed)`, then
`db.insert(contentToEmbed, embedding, metadata)`.  Embedding and store
failures propagate; compression failures never do. -/
def addMemory (m : MemoriState) (emb : Emb) (content role : String) (now : String)
    (fault : Option InsertFault) : Except AddErr (MemoriState × Nat) :=
  let payload := addMemoryPayload m content role
  match emb payload.1 with
  | Except.error _ => Except.error AddErr.embedding
  | Except.ok v =>
      match sqliteInsert m.db payload.1 v payload.2 now fault with
      | Except.error msg => Except.error (AddErr.store msg)
      | Except.ok (db1, id) => Except.ok ({ m with db := db1 }, id)

/-- The search filter built by `Memori.search`:
`{ entityId: this.entityId || undefined, processId: this.processId || undefined }`. -/
def memoriFilter (m : MemoriState) : MemoryFilter :=
  { entityId := truthyOpt m.entityId, processId := truthyOpt m.processId,
    sessionId := none }

/-- Models `Memori.search(query, limit)`: embed the query, then delegate to
`db.search` with the attribution filter.  `storeFault` injects a
backend failure of the underlying search query. -/
def memoriSearch (m : MemoriState) (dist : Vec → Vec → Rat) (emb : Emb)
    (storeFault : Bool) (query : String) (limit : Nat) :
    Except Unit (List MemoryResult) :=
  match emb query with
  | Except.error _ => Except.error ()
  | Except.ok v =>
      if storeFault then Except.error ()
      else Except.ok (sqliteSearch m.db dist v limit (memoriFilter m))

/-- The fields of `stats.lastRun` that the claims observe. -/
structure ExecStats where
  contextChunks : Nat := 0
  usedQuery : Option String := none
deriving DecidableEq, Repr

/-- One line of the context string: `- <content> (score: <distance>)`. -/
def formatResult (r : MemoryResult) : String :=
  "- " ++ r.content ++ " (score: " ++ toString r.distance ++ ")"

/-- The effective search key of `retrieveContext`: the reasoning stage,
when its gate passes, replaces the query by the collaborator output if
that call succeeds with non-empty text, and falls back silently (a
logged warning) to the original query otherwise. -/
def effectiveKey (m : MemoriState) (query : String) : String :=
  if reasoningGate m then
    match enhanceQuery m query with
    | Except.ok reasoned => if reasoned ≠ "" then reasoned else query
    | Except.error _ => query
  else query

/-- Models `Memori.retrieveContext(query)`: reasoning stage, then
`this.search(searchKey, 5)`; on success the results are formatted one
line each and joined, and `stats.lastRun.usedQuery` records the search
key; on any internal search failure the error is logged, the context
degrades to `""`, and `usedQuery` keeps its previous value.  Returns
the context string and the new `stats.lastRun`. -/
def retrieveContext (m : MemoriState) (dist : Vec → Vec → Rat) (emb : Emb)
    (storeFault : Bool) (query : String) (prev : ExecStats) : String × ExecStats :=
  let searchKey := effectiveKey m query
  match memoriSearch m dist emb storeFault searchKey 5 with
  | Except.ok results =>
      let context :=
        if results.length > 0 then
          String.intercalate "\n" (List.map formatResult results)
        else ""
      (context, { contextChunks := results.length, usedQuery := some searchKey })
  | Except.error _ =>
      ("", { contextChunks := 0, usedQuery := prev.usedQuery })

/-- State of the background write queue of a `Memori` instance.

`tracked` is the `pendingPromises` array (op ids in push order).
`queued` and `settled` record which operations were ever started and
which have settled (fulfilled, or rejected and logged — `queueMemory`
attaches a `.catch`, so the tracked promise always fulfils once the
underlying write settles).  `waits` holds every `augmentation.wait()`
call that has started but not yet resolved, together with the snapshot
of `pendingPromises` that its `Promise.all` captured when it was
invoked; `waitsBegun` keeps wait ids unique. -/
structure QueueState where
  queued : List Nat := []
  tracked : List Nat := []
  settled : List Nat := []
  waitsBegun : List Nat := []
  waits : List (Nat × List Nat) := []
deriving DecidableEq, Repr

/-- The empty queue of a fresh `Memori` instance. -/
def queueInit : QueueState := {}

/-- Events of the cooperative scheduler around `queueMemory` and
`augmentation.wait`:

* `enqueue op`: a `queueMemory` call starts background operation `op`
  and pushes its (caught) promise onto `pendingPromises`;
* `settle op`: the background operation `op` settles (success, or a
  failure that the attached handler logs);
* `waitBegin w`: a `wait()` call starts; `Promise.all` synchronously
  snapshots the current `pendingPromises` array;
* `waitEnd w`: that `Promise.all` has resolved — possible only once
  every operation in the snapshot of `w` has settled — and the
  continuation `this.pendingPromises = []` replaces the array with a
  fresh empty one. -/
inductive QEvent where
  | enqueue (op : Nat)
  | settle (op : Nat)
  | waitBegin (w : Nat)
  | waitEnd (w : Nat)
deriving DecidableEq, Repr

/-- One scheduler step; `none` when the event is not enabled in the
given state. -/
def queueApply (s : QueueState) : QEvent → Option QueueState
  | QEvent.enqueue op =>
      if op ∈ s.queued then none
      else some { s with queued := s.queued ++ [op], tracked := s.tracked ++ [op] }
  | QEvent.settle op =>
      if op ∈ s.queued ∧ op ∉ s.settled then some { s with settled := s.settled ++ [op] }
      else none
  | QEvent.waitBegin w =>
      if w ∈ s.waitsBegun then none
      else some { s with waitsBegun := s.waitsBegun ++ [w],
                         waits := s.waits ++ [(w, s.tracked)] }
  | QEvent.waitEnd w =>
      match List.find? (fun p => p.1 == w) s.waits with
      | none => none
      | some p =>
          if List.all p.2 (fun op => op ∈ s.settled) then
            some { s with tracked := [],
                          waits := List.filter (fun q => ¬ q.1 == w) s.waits }
          else none

/-- Run a sequence of scheduler events; `none` as soon as one is not
enabled. -/
def queueRun (s : QueueState) : List QEvent → Option QueueState
  | [] => some s
  | e :: es =>
      match queueApply s e with
      | some s1 => queueRun s1 es
      | none => none

/-- A concrete backend-style distance function used to instantiate the
`dist` parameter in examples: the first coordinate of the stored vector
(so a stored vector directly carries its distance from any query).
Chosen arithmetic-free so that examples evaluate by `decide`. -/
def headDist (_q v : Vec) : Rat :=
  v.headD 0

/-!  ## Theorems  -/

/-- Keys can be looked up on either side of an appended metadata map. -/
theorem mdLookup_append (md1 md2 : Metadata) (k : String) :
    mdLookup (md1 ++ md2) k = (mdLookup md1 k).or (mdLookup md2 k) := by
  simp only [mdLookup, List.find?_append]
  cases List.find? (fun p => p.1 == k) md1 <;> simp

/-- The base metadata of `addMemory` holds no key other than `role`,
`entityId` and `processId`. -/
theorem mdLookup_baseMetadata_none (m : MemoriState) (role k : String)
    (h1 : k ≠ "role") (h2 : k ≠ "entityId") (h3 : k ≠ "processId") :
    mdLookup (baseMetadata m role) k = none := by
  have e1 : ("role" == k) = false := beq_eq_false_iff_ne.mpr (Ne.symm h1)
  have e2 : ("entityId" == k) = false := beq_eq_false_iff_ne.mpr (Ne.symm h2)
  have e3 : ("processId" == k) = false := beq_eq_false_iff_ne.mpr (Ne.symm h3)
  simp only [baseMetadata, mdLookup]
  cases truthyOpt m.entityId <;> cases truthyOpt m.processId <;>
    simp [List.find?, e1, e2, e3]

/-- C10: on the SQLite backend, `insert` persists only the metadata
fields `role`, `entityId`, `processId` and `sessionId` — two metadata
maps agreeing on those four extractions produce identical store
behaviour, so every other supplied key (including the orchestrator's
compression keys) is silently discarded — and the metadata of every
search result from this backend carries exactly the keys `role`,
`created_at`, `entityId`, `processId`, `sessionId`. -/
theorem C10_sqlite_metadata_projection :
    (∀ (st : SqliteState) (c : String) (e : Vec) (md md1 : Metadata) (now : String)
        (fault : Option InsertFault),
        mdRole md = mdRole md1 →
        mdAttr md "entityId" = mdAttr md1 "entityId" →
        mdAttr md "processId" = mdAttr md1 "processId" →
        mdAttr md "sessionId" = mdAttr md1 "sessionId" →
        sqliteInsert st c e md now fault = sqliteInsert st c e md1 now fault) ∧
    (∀ (st : SqliteState) (dist : Vec → Vec → Rat) (q : Vec) (limit : Nat)
        (f : MemoryFilter) (r : MemoryResult), r ∈ sqliteSearch st dist q limit f →
        List.map Prod.fst r.metadata =
          ["role", "created_at", "entityId", "processId", "sessionId"]) := by
  constructor
  · intro st c e md md1 now fault hr he hp hs
    simp only [sqliteInsert, hr, he, hp, hs]
  · intro st dist q limit f r hr
    obtain ⟨p, _, rfl⟩ := List.mem_map.mp hr
    rfl

/-- Witness for C10 at concrete inputs: a map carrying the compression
keys inserts identically to its four-field projection, and a concrete
search result carries exactly the five fixed keys. -/
theorem C10_sqlite_metadata_projection_witness :
    sqliteInsert (sqliteInit 1) "c" [0]
        [("role", MValue.str "user"), ("original_content", MValue.str "zzz"),
         ("is_compressed", MValue.bool true)] "t" none =
      sqliteInsert (sqliteInit 1) "c" [0] [("role", MValue.str "user")] "t" none ∧
    List.map Prod.fst
        (sqliteToResult headDist [(0 : Rat)]
          ({ rowid := 1, content := "hello", role := "user", entityId := none,
             processId := none, sessionId := none, createdAt := "t" }, [(0 : Rat)])).metadata =
      ["role", "created_at", "entityId", "processId", "sessionId"] := by
  constructor
  · exact C10_sqlite_metadata_projection.1 (sqliteInit 1) "c" [0] _ _ "t" none
      (by decide) (by decide) (by decide) (by decide)
  · exact C10_sqlite_metadata_projection.2
      { dim := 1, nextRowid := 2,
        memories := [{ rowid := 1, content := "hello", role := "user", entityId := none,
                       processId := none, sessionId := none, createdAt := "t" }],
        vec := [(1, [(0 : Rat)])] }
      headDist [(0 : Rat)] 5 {} _ (by decide)

/-- C2: with the compression stage enabled, `addMemory` indexes the
collaborator output when the invoked collaborator (the dedicated one if
configured, else the primary) succeeds with non-empty text, preserving
the original verbatim under the `original_content` metadata key (the
spec's `originalContent`) and flagging `is_compressed` (`isCompressed`);
when the collaborator throws or returns empty, or no collaborator is
configured at all, the original content is indexed unmodified with no
compression metadata; and whenever embedding and store succeed,
`addMemory` succeeds — the compression stage never fails it. -/
theorem C2_compression_stage (m : MemoriState) (cfg : ClaraConfig)
    (content role : String)
    (hcfg : m.claraConfig = some cfg) (hen : cfg.enableCompression = true) :
    (∀ g0, m.internalLLM = some g0 →
      (∀ s, (cfg.compressor.getD g0) (compressionPrompt m content) = Except.ok s →
          s ≠ "" →
          addMemoryPayload m content role =
            (s, baseMetadata m role ++
              [("original_content", MValue.str content),
               ("is_compressed", MValue.bool true)]) ∧
          mdLookup (addMemoryPayload m content role).2 "original_content" =
            some (MValue.str content) ∧
          mdLookup (addMemoryPayload m content role).2 "is_compressed" =
            some (MValue.bool true)) ∧
      ((cfg.compressor.getD g0) (compressionPrompt m content) = Except.error () →
          addMemoryPayload m content role = (content, baseMetadata m role) ∧
          mdLookup (addMemoryPayload m content role).2 "original_content" = none ∧
          mdLookup (addMemoryPayload m content role).2 "is_compressed" = none) ∧
      ((cfg.compressor.getD g0) (compressionPrompt m content) = Except.ok "" →
          addMemoryPayload m content role = (content, baseMetadata m role) ∧
          mdLookup (addMemoryPayload m content role).2 "original_content" = none ∧
          mdLookup (addMemoryPayload m content role).2 "is_compressed" = none)) ∧
    (m.internalLLM = none →
        addMemoryPayload m content role = (content, baseMetadata m role)) ∧
    (∀ (emb : Emb) (v : Vec) (now : String) (db1 : SqliteState) (id : Nat),
        emb (addMemoryPayload m content role).1 = Except.ok v →
        sqliteInsert m.db (addMemoryPayload m content role).1 v
            (addMemoryPayload m content role).2 now none = Except.ok (db1, id) →
        addMemory m emb content role now none = Except.ok ({ m with db := db1 }, id)) := by
  have hbase1 := mdLookup_baseMetadata_none m role "original_content"
    (by decide) (by decide) (by decide)
  have hbase2 := mdLookup_baseMetadata_none m role "is_compressed"
    (by decide) (by decide) (by decide)
  have hgate : ∀ g0, m.internalLLM = some g0 → compressionGate m = true := by
    intro g0 hllm
    simp [compressionGate, claraFlag, hcfg, hen, hllm]
  have hgen : ∀ g0, m.internalLLM = some g0 →
      compressionGenerator m = some (cfg.compressor.getD g0) := by
    intro g0 hllm
    cases hc : cfg.compressor with
    | some g => simp [compressionGenerator, hcfg, hc]
    | none => simp [compressionGenerator, hcfg, hc, hllm]
  refine ⟨?_, ?_, ?_⟩
  · intro g0 hllm
    refine ⟨?_, ?_, ?_⟩
    · intro s hok hne
      have hpay : addMemoryPayload m content role =
          (s, baseMetadata m role ++
            [("original_content", MValue.str content),
             ("is_compressed", MValue.bool true)]) := by
        simp [addMemoryPayload, hgate g0 hllm, compressContent, hgen g0 hllm, hok, hne]
      refine ⟨hpay, ?_, ?_⟩
      · rw [hpay]
        show mdLookup (baseMetadata m role ++
          [("original_content", MValue.str content),
           ("is_compressed", MValue.bool true)]) "original_content" = _
        rw [mdLookup_append, hbase1]
        rfl
      · rw [hpay]
        show mdLookup (baseMetadata m role ++
          [("original_content", MValue.str content),
           ("is_compressed", MValue.bool true)]) "is_compressed" = _
        rw [mdLookup_append, hbase2]
        rfl
    · intro herr
      have hpay : addMemoryPayload m content role = (content, baseMetadata m role) := by
        simp [addMemoryPayload, hgate g0 hllm, compressContent, hgen g0 hllm, herr]
      exact ⟨hpay, by simp [hpay, hbase1], by simp [hpay, hbase2]⟩
    · intro hempty
      have hpay : addMemoryPayload m content role = (content, baseMetadata m role) := by
        simp [addMemoryPayload, hgate g0 hllm, compressContent, hgen g0 hllm, hempty]
      exact ⟨hpay, by simp [hpay, hbase1], by simp [hpay, hbase2]⟩
  · intro hllm
    simp [addMemoryPayload, compressionGate, hllm]
  · intro emb v now db1 id hemb hins
    simp [addMemory, hemb, hins]

/-- Witness for C2: a concrete instance whose collaborator returns
`"COMPRESSED_CONTENT"`; the payload carries the compressed text plus
the two compression keys, and the full `addMemory` succeeds. -/
theorem C2_compression_stage_witness :
    addMemoryPayload
        { db := sqliteInit 1, claraConfig := some { enableCompression := true },
          internalLLM := some (fun _ => Except.ok "COMPRESSED_CONTENT") }
        "Original Long Content" "user" =
      ("COMPRESSED_CONTENT",
        baseMetadata
          { db := sqliteInit 1, claraConfig := some { enableCompression := true },
            internalLLM := some (fun _ => Except.ok "COMPRESSED_CONTENT") } "user" ++
        [("original_content", MValue.str "Original Long Content"),
         ("is_compressed", MValue.bool true)]) ∧
    addMemory
        { db := sqliteInit 1, claraConfig := some { enableCompression := true },
          internalLLM := some (fun _ => Except.ok "COMPRESSED_CONTENT") }
        (fun _ => Except.ok [(0 : Rat)]) "Original Long Content" "user" "t" none =
      Except.ok
        ({ db := { dim := 1, nextRowid := 2,
                   memories := [{ rowid := 1, content := "COMPRESSED_CONTENT",
                                  role := "user", entityId := none, processId := none,
                                  sessionId := none, createdAt := "t" }],
                   vec := [(1, [(0 : Rat)])] },
           claraConfig := some { enableCompression := true },
           internalLLM := some (fun _ => Except.ok "COMPRESSED_CONTENT") }, 1) := by
  have h := C2_compression_stage
      { db := sqliteInit 1, claraConfig := some { enableCompression := true },
        internalLLM := some (fun _ => Except.ok "COMPRESSED_CONTENT") }
      { enableCompression := true } "Original Long Content" "user" rfl rfl
  constructor
  · exact ((h.1 _ rfl).1 "COMPRESSED_CONTENT" rfl (by decide)).1
  · exact h.2.2 _ [(0 : Rat)] "t" _ 1 rfl rfl

/-- Counterexample to C7 as stated: with the compression stage enabled
and a dedicated compressor configured but no primary collaborator, the
claim says the stage runs using the dedicated collaborator (whose
output here would be `"COMPRESSED_CONTENT"`); in the code the stage
gate `claraConfig?.enableCompression && this.internalLLM` checks the
primary collaborator, so the stage is skipped entirely and the original
content is indexed. -/
theorem C7_counterexample :
    (addMemoryPayload
        { db := sqliteInit 1,
          claraConfig := some { enableCompression := true,
                                compressor := some (fun _ => Except.ok "COMPRESSED_CONTENT") },
          internalLLM := none }
        "Original Long Content" "user").1 = "Original Long Content" ∧
    (addMemoryPayload
        { db := sqliteInit 1,
          claraConfig := some { enableCompression := true,
                                compressor := some (fun _ => Except.ok "COMPRESSED_CONTENT") },
          internalLLM := none }
        "Original Long Content" "user").1 ≠ "COMPRESSED_CONTENT" ∧
    compressionGate
        { db := sqliteInit 1,
          claraConfig := some { enableCompression := true,
                                compressor := some (fun _ => Except.ok "COMPRESSED_CONTENT") },
          internalLLM := none } = false :=
  ⟨rfl, by decide, rfl⟩

/-- C7 (amended): inside the compression stage the dedicated
collaborator is preferred over the primary one, but the stage itself
only runs when the primary collaborator is configured: its gate checks
`this.internalLLM`, so with a dedicated compressor and no primary the
stage is a pass-through.  The reasoning stage has no dedicated
collaborator at all and uses the primary one, else passes through.
When the stage is enabled with no primary collaborator, exactly one
warning is emitted at configuration time and none per call. -/
theorem C7_collaborator_selection (m : MemoriState) (cfg : ClaraConfig)
    (content role query : String)
    (hcfg : m.claraConfig = some cfg) (_hen : cfg.enableCompression = true) :
    (∀ g g0, cfg.compressor = some g → m.internalLLM = some g0 →
        compressContent m content = g (compressionPrompt m content)) ∧
    (∀ g0, cfg.compressor = none → m.internalLLM = some g0 →
        compressContent m content = g0 (compressionPrompt m content)) ∧
    (∀ g0, m.internalLLM = some g0 →
        enhanceQuery m query =
          g0 ((truthyOpt cfg.reasoningPrompt).getD (defaultReasoningPrompt query))) ∧
    (m.internalLLM = none →
        addMemoryPayload m content role = (content, baseMetadata m role) ∧
        effectiveKey m query = query ∧
        addMemoryWarningCount m content = 0 ∧
        claraSetupWarningCount (some cfg) none = 1) := by
  refine ⟨?_, ?_, ?_, ?_⟩
  · intro g g0 hc hllm
    simp [compressContent, compressionGenerator, hcfg, hc]
  · intro g0 hc hllm
    simp [compressContent, compressionGenerator, hcfg, hc, hllm]
  · intro g0 hllm
    simp [enhanceQuery, hllm, hcfg]
  · intro hllm
    refine ⟨?_, ?_, ?_, ?_⟩
    · simp [addMemoryPayload, compressionGate, hllm]
    · simp [effectiveKey, reasoningGate, hllm]
    · simp [addMemoryWarningCount, compressionGate, hllm]
    · rfl

/-- Witness for C7 (amended) at concrete collaborators: with both a
dedicated compressor and a primary collaborator the dedicated one is
invoked; without a primary, the payload is the pass-through and the
warning counts are as stated. -/
theorem C7_collaborator_selection_witness :
    compressContent
        { db := sqliteInit 1,
          claraConfig := some { enableCompression := true,
                                compressor := some (fun _ => Except.ok "DEDICATED") },
          internalLLM := some (fun _ => Except.ok "PRIMARY") } "c" =
      Except.ok "DEDICATED" ∧
    (addMemoryPayload
        { db := sqliteInit 1,
          claraConfig := some { enableCompression := true,
                                compressor := some (fun _ => Except.ok "DEDICATED") },
          internalLLM := none } "c" "user" =
      ("c", baseMetadata
        { db := sqliteInit 1,
          claraConfig := some { enableCompression := true,
                                compressor := some (fun _ => Except.ok "DEDICATED") },
          internalLLM := none } "user") ∧
     effectiveKey
        { db := sqliteInit 1,
          claraConfig := some { enableCompression := true,
                                compressor := some (fun _ => Except.ok "DEDICATED") },
          internalLLM := none } "q" = "q" ∧
     addMemoryWarningCount
        { db := sqliteInit 1,
          claraConfig := some { enableCompression := true,
                                compressor := some (fun _ => Except.ok "DEDICATED") },
          internalLLM := none } "c" = 0 ∧
     claraSetupWarningCount
        (some { enableCompression := true,
                compressor := some (fun _ => Except.ok "DEDICATED") }) none = 1) := by
  constructor
  · have h := C7_collaborator_selection
        { db := sqliteInit 1,
          claraConfig := some { enableCompression := true,
                                compressor := some (fun _ => Except.ok "DEDICATED") },
          internalLLM := some (fun _ => Except.ok "PRIMARY") }
        { enableCompression := true,
          compressor := some (fun _ => Except.ok "DEDICATED") }
        "c" "user" "q" rfl rfl
    exact (h.1 _ _ rfl rfl).trans rfl
  · have h := C7_collaborator_selection
        { db := sqliteInit 1,
          claraConfig := some { enableCompression := true,
                                compressor := some (fun _ => Except.ok "DEDICATED") },
          internalLLM := none }
        { enableCompression := true,
          compressor := some (fun _ => Except.ok "DEDICATED") }
        "c" "user" "q" rfl rfl
    exact h.2.2.2 rfl

/-- The context string built by `retrieveContext` equals the join of the
formatted results also when there are none. -/
theorem context_if_eq_intercalate (results : List MemoryResult) :
    (if results.length > 0 then
        String.intercalate "\n" (List.map formatResult results)
      else "") =
      String.intercalate "\n" (List.map formatResult results) := by
  cases results with
  | nil => rfl
  | cons h t => simp

/-- C6: with the reasoning stage enabled (and hence a primary
collaborator present), a successful non-empty collaborator output
becomes the effective search key — it is embedded, searched with, and
recorded as `stats.lastRun.usedQuery`; when the collaborator throws,
the original query is used and recorded instead; in both cases
`retrieveContext` completes with the stated value, so the reasoning
stage never fails it. -/
theorem C6_reasoning_stage (m : MemoriState) (dist : Vec → Vec → Rat) (emb : Emb)
    (query : String) (prev : ExecStats) (hgate : reasoningGate m = true) :
    (∀ r, enhanceQuery m query = Except.ok r → r ≠ "" →
        effectiveKey m query = r ∧
        ∀ v, emb r = Except.ok v →
          retrieveContext m dist emb false query prev =
            (String.intercalate "\n"
                (List.map formatResult (sqliteSearch m.db dist v 5 (memoriFilter m))),
             { contextChunks := (sqliteSearch m.db dist v 5 (memoriFilter m)).length,
               usedQuery := some r })) ∧
    (enhanceQuery m query = Except.error () →
        effectiveKey m query = query ∧
        ∀ v, emb query = Except.ok v →
          retrieveContext m dist emb false query prev =
            (String.intercalate "\n"
                (List.map formatResult (sqliteSearch m.db dist v 5 (memoriFilter m))),
             { contextChunks := (sqliteSearch m.db dist v 5 (memoriFilter m)).length,
               usedQuery := some query })) := by
  constructor
  · intro r hok hne
    have hkey : effectiveKey m query = r := by
      simp [effectiveKey, hgate, hok, hne]
    refine ⟨hkey, ?_⟩
    intro v hemb
    simp [retrieveContext, hkey, memoriSearch, hemb, context_if_eq_intercalate]
  · intro herr
    have hkey : effectiveKey m query = query := by
      simp [effectiveKey, hgate, herr]
    refine ⟨hkey, ?_⟩
    intro v hemb
    simp [retrieveContext, hkey, memoriSearch, hemb, context_if_eq_intercalate]

/-- Witness for C6: a collaborator answering `"REASONED_QUERY"` makes
`retrieveContext("User Query")` record `usedQuery = "REASONED_QUERY"`;
a throwing collaborator makes it record `"User Query"`. -/
theorem C6_reasoning_stage_witness :
    retrieveContext
        { db := sqliteInit 1, claraConfig := some { enableReasoning := true },
          internalLLM := some (fun _ => Except.ok "REASONED_QUERY") }
        headDist (fun _ => Except.ok [(0 : Rat)]) false "User Query" {} =
      ("", { contextChunks := 0, usedQuery := some "REASONED_QUERY" }) ∧
    retrieveContext
        { db := sqliteInit 1, claraConfig := some { enableReasoning := true },
          internalLLM := some (fun _ => Except.error ()) }
        headDist (fun _ => Except.ok [(0 : Rat)]) false "User Query" {} =
      ("", { contextChunks := 0, usedQuery := some "User Query" }) := by
  constructor
  · have h := (C6_reasoning_stage
        { db := sqliteInit 1, claraConfig := some { enableReasoning := true },
          internalLLM := some (fun _ => Except.ok "REASONED_QUERY") }
        headDist (fun _ => Except.ok [(0 : Rat)]) "User Query" {} rfl).1
        "REASONED_QUERY" rfl (by decide)
    exact (h.2 [(0 : Rat)] rfl).trans (by decide)
  · have h := (C6_reasoning_stage
        { db := sqliteInit 1, claraConfig := some { enableReasoning := true },
          internalLLM := some (fun _ => Except.error ()) }
        headDist (fun _ => Except.ok [(0 : Rat)]) "User Query" {} rfl).2 rfl
    exact (h.2 [(0 : Rat)] rfl).trans (by decide)

/-- C8: `retrieveContext` never surfaces an internal search failure —
on an embedding failure, an injected store failure, or any failing
`this.search` call it returns the empty context string — and on a
successful search it returns one `"- <content> (score: <distance>)"`
line per result, joined in ranked order. -/
theorem C8_context_degradation (m : MemoriState) (dist : Vec → Vec → Rat) (emb : Emb)
    (storeFault : Bool) (query : String) (prev : ExecStats) :
    (emb (effectiveKey m query) = Except.error () →
        (retrieveContext m dist emb storeFault query prev).1 = "") ∧
    (storeFault = true →
        (retrieveContext m dist emb storeFault query prev).1 = "") ∧
    (memoriSearch m dist emb storeFault (effectiveKey m query) 5 = Except.error () →
        (retrieveContext m dist emb storeFault query prev).1 = "") ∧
    (∀ results,
        memoriSearch m dist emb storeFault (effectiveKey m query) 5 = Except.ok results →
        (retrieveContext m dist emb storeFault query prev).1 =
          String.intercalate "\n" (List.map formatResult results)) := by
  refine ⟨?_, ?_, ?_, ?_⟩
  · intro hemb
    simp [retrieveContext, memoriSearch, hemb]
  · intro hsf
    cases hemb : emb (effectiveKey m query) with
    | error e => simp [retrieveContext, memoriSearch, hemb]
    | ok v => simp [retrieveContext, memoriSearch, hemb, hsf]
  · intro herr
    simp [retrieveContext, herr]
  · intro results hok
    simp [retrieveContext, hok, context_if_eq_intercalate]

/-- Witness for C8: a failing embedding collaborator degrades the
context to `""`; a successful search over a one-record store yields its
single formatted line. -/
theorem C8_context_degradation_witness :
    (retrieveContext { db := sqliteInit 1 } headDist (fun _ => Except.error ())
        false "q" {}).1 = "" ∧
    (retrieveContext
        { db := { dim := 1, nextRowid := 2,
                  memories := [{ rowid := 1, content := "hello", role := "user",
                                 entityId := none, processId := none, sessionId := none,
                                 createdAt := "t" }],
                  vec := [(1, [(3 : Rat)])] } }
        headDist (fun _ => Except.ok [(0 : Rat)]) false "q" {}).1 =
      "- hello (score: 3)" := by
  constructor
  · exact (C8_context_degradation { db := sqliteInit 1 } headDist
      (fun _ => Except.error ()) false "q" {}).1 rfl
  · have h := (C8_context_degradation
        { db := { dim := 1, nextRowid := 2,
                  memories := [{ rowid := 1, content := "hello", role := "user",
                                 entityId := none, processId := none, sessionId := none,
                                 createdAt := "t" }],
                  vec := [(1, [(3 : Rat)])] } }
        headDist (fun _ => Except.ok [(0 : Rat)]) false "q" {}).2.2.2
    exact (h _ rfl).trans (by decide)

instance (dist : Vec → Vec → Rat) (q : Vec) : IsTotal (MemRow × Vec) (distLE dist q) :=
  ⟨fun a b => le_total (dist q a.2) (dist q b.2)⟩

instance (dist : Vec → Vec → Rat) (q : Vec) : IsTrans (MemRow × Vec) (distLE dist q) :=
  ⟨fun _ _ _ hab hbc => le_trans hab hbc⟩

instance (dist : Vec → Vec → Rat) (q : Vec) : IsTotal PgRow (pgDistLE dist q) :=
  ⟨fun a b => le_total (dist q a.embedding) (dist q b.embedding)⟩

instance (dist : Vec → Vec → Rat) (q : Vec) : IsTrans PgRow (pgDistLE dist q) :=
  ⟨fun _ _ _ hab hbc => le_trans hab hbc⟩

/-- In a list sorted ascending under a score `f`, an element with at
most `k` list members scoring no higher than it lies within the first
`k` positions. -/
theorem mem_take_of_sorted_countP {α : Type} (f : α → Rat) :
    ∀ (l : List α), l.Pairwise (fun a b => f a ≤ f b) →
      ∀ x ∈ l, ∀ k, List.countP (fun y => decide (f y ≤ f x)) l ≤ k →
        x ∈ l.take k := by
  intro l
  induction l with
  | nil => intro _ x hx; cases hx
  | cons a t ih =>
    intro hp x hx k hc
    rw [List.countP_cons] at hc
    rcases List.mem_cons.mp hx with rfl | hxt
    · have hpa : (decide (f x ≤ f x)) = true := by simp
      rw [hpa] at hc
      simp at hc
      cases k with
      | zero => omega
      | succ k1 => exact List.mem_cons_self x _
    · have hfa : f a ≤ f x := (List.pairwise_cons.mp hp).1 x hxt
      have hpa : (decide (f a ≤ f x)) = true := by simpa using hfa
      rw [hpa] at hc
      simp at hc
      have hpos : 0 < List.countP (fun y => decide (f y ≤ f x)) t :=
        List.countP_pos_iff.mpr ⟨x, hxt, by simp⟩
      cases k with
      | zero => omega
      | succ k1 =>
        have hin := ih (List.pairwise_cons.mp hp).2 x hxt k1 (by omega)
        exact List.mem_cons_of_mem a hin

/-- C1 (amended): both backends return at most `limit` results, ranked
ascending by distance.  The Postgres backend narrows by the
exact-match AND-combination of the provided (truthy) filter fields
first and ranks the survivors, so every result comes from a matching
row and any matching row with at most `limit` matching rows at distance
not above its own is returned.  The SQLite backend instead runs the
KNN pass first — its result set is exactly the filter-matching subset
of the `limit` nearest rows overall — so a matching record among the
`limit` nearest matching records can be omitted when closer
non-matching records exhaust the KNN budget (see the counterexample). -/
theorem C1_search_filter_ranking (dist : Vec → Vec → Rat) (q : Vec) (limit : Nat)
    (f : MemoryFilter) :
    (∀ st : SqliteState,
      (sqliteSearch st dist q limit f).length ≤ limit ∧
      (sqliteSearch st dist q limit f).Pairwise (fun a b => a.distance ≤ b.distance) ∧
      (∀ r, r ∈ sqliteSearch st dist q limit f ↔
        ∃ p, p ∈ sqliteKnn st dist q limit ∧ matchesFilter f p.1 = true ∧
          r = sqliteToResult dist q p)) ∧
    (∀ st : PgState,
      (pgSearch st dist q limit f).length ≤ limit ∧
      (pgSearch st dist q limit f).Pairwise (fun a b => a.distance ≤ b.distance) ∧
      (∀ r, r ∈ pgSearch st dist q limit f →
        ∃ row, row ∈ st.rows ∧ pgMatches f row = true ∧ r = pgToResult dist q row) ∧
      (∀ row, row ∈ st.rows → pgMatches f row = true →
        List.countP
            (fun r2 => pgMatches f r2 &&
              decide (dist q r2.embedding ≤ dist q row.embedding)) st.rows ≤ limit →
        pgToResult dist q row ∈ pgSearch st dist q limit f)) := by
  constructor
  · intro st
    refine ⟨?_, ?_, ?_⟩
    · calc (sqliteSearch st dist q limit f).length
          = (List.filter (fun p => matchesFilter f p.1) (sqliteKnn st dist q limit)).length := by
            simp [sqliteSearch]
        _ ≤ (sqliteKnn st dist q limit).length := List.length_filter_le _ _
        _ ≤ limit := by simp [sqliteKnn]
    · have hs : (List.insertionSort (distLE dist q) (joinRows st)).Pairwise (distLE dist q) :=
        List.sorted_insertionSort (distLE dist q) (joinRows st)
      have ht : (sqliteKnn st dist q limit).Pairwise (distLE dist q) :=
        hs.sublist (List.take_sublist _ _)
      have hf : (List.filter (fun p => matchesFilter f p.1)
          (sqliteKnn st dist q limit)).Pairwise (distLE dist q) :=
        ht.sublist (List.filter_sublist _)
      exact hf.map (sqliteToResult dist q) (fun a b hab => hab)
    · intro r
      simp only [sqliteSearch, List.mem_map, List.mem_filter]
      constructor
      · rintro ⟨p, ⟨hmem, hmatch⟩, rfl⟩
        exact ⟨p, hmem, hmatch, rfl⟩
      · rintro ⟨p, hmem, hmatch, rfl⟩
        exact ⟨p, ⟨hmem, hmatch⟩, rfl⟩
  · intro st
    refine ⟨?_, ?_, ?_, ?_⟩
    · calc (pgSearch st dist q limit f).length
          = (List.take limit (List.insertionSort (pgDistLE dist q)
              (List.filter (pgMatches f) st.rows))).length := by simp [pgSearch]
        _ ≤ limit := by simp
    · have hs : (List.insertionSort (pgDistLE dist q)
          (List.filter (pgMatches f) st.rows)).Pairwise (pgDistLE dist q) :=
        List.sorted_insertionSort (pgDistLE dist q) _
      have ht := hs.sublist (List.take_sublist limit _)
      exact ht.map (pgToResult dist q) (fun a b hab => hab)
    · intro r hr
      simp only [pgSearch, List.mem_map] at hr
      obtain ⟨row, hmem, rfl⟩ := hr
      have h1 : row ∈ List.insertionSort (pgDistLE dist q)
          (List.filter (pgMatches f) st.rows) := List.mem_of_mem_take hmem
      have h2 := (List.mem_insertionSort (pgDistLE dist q)).mp h1
      have h3 := List.mem_filter.mp h2
      exact ⟨row, h3.1, h3.2, rfl⟩
    · intro row hrow hmatch hcount
      have hmemf : row ∈ List.filter (pgMatches f) st.rows :=
        List.mem_filter.mpr ⟨hrow, hmatch⟩
      have hmems : row ∈ List.insertionSort (pgDistLE dist q)
          (List.filter (pgMatches f) st.rows) :=
        (List.mem_insertionSort (pgDistLE dist q)).mpr hmemf
      have hsorted : (List.insertionSort (pgDistLE dist q)
          (List.filter (pgMatches f) st.rows)).Pairwise
            (fun a b => dist q a.embedding ≤ dist q b.embedding) :=
        List.sorted_insertionSort (pgDistLE dist q) _
      have hperm : (List.insertionSort (pgDistLE dist q)
          (List.filter (pgMatches f) st.rows)).Perm
            (List.filter (pgMatches f) st.rows) :=
        List.perm_insertionSort (pgDistLE dist q) _
      have hcnt : List.countP
          (fun y => decide (dist q y.embedding ≤ dist q row.embedding))
          (List.insertionSort (pgDistLE dist q) (List.filter (pgMatches f) st.rows)) ≤
          limit := by
        rw [hperm.countP_eq, List.countP_filter]
        calc List.countP
              (fun a => decide (dist q a.embedding ≤ dist q row.embedding) && pgMatches f a)
              st.rows
            = List.countP
              (fun a => pgMatches f a && decide (dist q a.embedding ≤ dist q row.embedding))
              st.rows := by
              apply List.countP_congr
              intro a _
              rw [Bool.and_comm]
          _ ≤ limit := hcount
      have htake := mem_take_of_sorted_countP
        (fun y : PgRow => dist q y.embedding) _ hsorted row hmems limit hcnt
      exact List.mem_map.mpr ⟨row, htake, rfl⟩

/-- Counterexample to C1 as stated, on the SQLite backend: in a store
reached by two inserts — record 1 with attribution `e1` at distance 9
and record 2 with attribution `e2` at distance 0 — record 1 matches the
filter `{entityId: "e1"}` and is among the `limit = 1` nearest matching
records (it is the only matching one), yet `search` returns nothing:
the KNN budget of 1 is spent on the closer non-matching record before
the filter is applied. -/
theorem C1_counterexample :
    ({ rowid := 1, content := "A", role := "user", entityId := some "e1",
       processId := none, sessionId := none, createdAt := "t" }, [(9 : Rat)]) ∈
      joinRows
        (sqliteRun (sqliteInit 1)
          [SOp.ins "A" [(9 : Rat)] [("entityId", MValue.str "e1")] "t" none,
           SOp.ins "B" [(0 : Rat)] [("entityId", MValue.str "e2")] "t" none]).1 ∧
    matchesFilter { entityId := some "e1" }
      { rowid := 1, content := "A", role := "user", entityId := some "e1",
        processId := none, sessionId := none, createdAt := "t" } = true ∧
    List.countP
      (fun p2 => matchesFilter { entityId := some "e1" } p2.1 &&
        decide (headDist [(0 : Rat)] p2.2 ≤ (9 : Rat)))
      (joinRows
        (sqliteRun (sqliteInit 1)
          [SOp.ins "A" [(9 : Rat)] [("entityId", MValue.str "e1")] "t" none,
           SOp.ins "B" [(0 : Rat)] [("entityId", MValue.str "e2")] "t" none]).1) ≤ 1 ∧
    sqliteSearch
      (sqliteRun (sqliteInit 1)
        [SOp.ins "A" [(9 : Rat)] [("entityId", MValue.str "e1")] "t" none,
         SOp.ins "B" [(0 : Rat)] [("entityId", MValue.str "e2")] "t" none]).1
      headDist [(0 : Rat)] 1 { entityId := some "e1" } = [] := by
  decide

/-- Witness for C1 (amended) on a concrete Postgres store with the same
shape as the counterexample: the matching record is returned despite
the closer non-matching one, because Postgres filters first. -/
theorem C1_search_filter_ranking_witness :
    pgToResult headDist [(0 : Rat)]
        { id := 1, content := "A", metadata := [("entityId", MValue.str "e1")],
          embedding := [(9 : Rat)], entityId := some "e1", processId := none,
          sessionId := none, createdAt := "t" } ∈
      pgSearch
        { dim := 1, nextId := 3,
          rows := [{ id := 1, content := "A", metadata := [("entityId", MValue.str "e1")],
                     embedding := [(9 : Rat)], entityId := some "e1", processId := none,
                     sessionId := none, createdAt := "t" },
                   { id := 2, content := "B", metadata := [("entityId", MValue.str "e2")],
                     embedding := [(0 : Rat)], entityId := some "e2", processId := none,
                     sessionId := none, createdAt := "t" }] }
        headDist [(0 : Rat)] 1 { entityId := some "e1" } :=
  ((C1_search_filter_ranking headDist [(0 : Rat)] 1 { entityId := some "e1" }).2
    { dim := 1, nextId := 3,
      rows := [{ id := 1, content := "A", metadata := [("entityId", MValue.str "e1")],
                 embedding := [(9 : Rat)], entityId := some "e1", processId := none,
                 sessionId := none, createdAt := "t" },
               { id := 2, content := "B", metadata := [("entityId", MValue.str "e2")],
                 embedding := [(0 : Rat)], entityId := some "e2", processId := none,
                 sessionId := none, createdAt := "t" }] }).2.2.2
    { id := 1, content := "A", metadata := [("entityId", MValue.str "e1")],
      embedding := [(9 : Rat)], entityId := some "e1", processId := none,
      sessionId := none, createdAt := "t" }
    (by decide) (by decide) (by decide)

/-- Shape of a successful SQLite insert: the returned id is the current
`AUTOINCREMENT` value and both the metadata row and the vector row were
appended. -/
theorem sqliteInsert_ok {st : SqliteState} {c : String} {e : Vec} {md : Metadata}
    {now : String} {fault : Option InsertFault} {st1 : SqliteState} {id : Nat}
    (h : sqliteInsert st c e md now fault = Except.ok (st1, id)) :
    id = st.nextRowid ∧ st1.dim = st.dim ∧ st1.nextRowid = st.nextRowid + 1 ∧
    st1.memories = st.memories ++
      [{ rowid := st.nextRowid, content := c, role := mdRole md,
         entityId := mdAttr md "entityId", processId := mdAttr md "processId",
         sessionId := mdAttr md "sessionId", createdAt := now }] ∧
    st1.vec = st.vec ++ [(st.nextRowid, e)] ∧ List.length e = st.dim := by
  unfold sqliteInsert at h
  split at h
  · exact absurd h (by simp)
  · split at h
    · exact absurd h (by simp)
    · next hvc =>
      split at h
      · exact absurd h (by simp)
      · simp only [Except.ok.injEq, Prod.mk.injEq] at h
        obtain ⟨rfl, rfl⟩ := h
        push_neg at hvc
        exact ⟨rfl, rfl, rfl, rfl, rfl, hvc.2⟩

/-- Shape of a successful Postgres insert. -/
theorem pgInsert_ok {st : PgState} {c : String} {e : Vec} {md : Metadata}
    {now : String} {fault : Bool} {st1 : PgState} {id : Nat}
    (h : pgInsert st c e md now fault = Except.ok (st1, id)) :
    id = st.nextId ∧ st1.dim = st.dim ∧ st1.nextId = st.nextId + 1 ∧
    st1.rows = st.rows ++
      [{ id := st.nextId, content := c, metadata := md, embedding := e,
         entityId := mdGetStr md "entityId", processId := mdGetStr md "processId",
         sessionId := mdGetStr md "sessionId", createdAt := now }] ∧
    List.length e = st.dim := by
  unfold pgInsert at h
  split at h
  · exact absurd h (by simp)
  · next hvc =>
    simp only [Except.ok.injEq, Prod.mk.injEq] at h
    obtain ⟨rfl, rfl⟩ := h
    push_neg at hvc
    exact ⟨rfl, rfl, rfl, rfl, hvc.2⟩

/-- Along any SQLite trace, returned ids are at least the starting
`AUTOINCREMENT` value and strictly increase. -/
theorem sqliteRun_ids (st : SqliteState) (ops : List SOp) :
    (∀ id ∈ (sqliteRun st ops).2, st.nextRowid ≤ id) ∧
    ((sqliteRun st ops).2).Pairwise (· < ·) := by
  induction ops generalizing st with
  | nil => exact ⟨fun id h => (nomatch h), List.Pairwise.nil⟩
  | cons op ops ih =>
    cases op with
    | del did =>
      have hst : sqliteStep st (SOp.del did) = (sqliteDelete st did, none) := rfl
      have hnext : (sqliteDelete st did).nextRowid = st.nextRowid := rfl
      simp only [sqliteRun, hst]
      have := ih (sqliteDelete st did)
      simpa [hnext] using this
    | ins c e md now fault =>
      cases hins : sqliteInsert st c e md now fault with
      | error msg =>
        have hst : sqliteStep st (SOp.ins c e md now fault) = (st, none) := by
          simp [sqliteStep, hins]
        simp only [sqliteRun, hst]
        simpa using ih st
      | ok pr =>
        obtain ⟨st1, id⟩ := pr
        obtain ⟨hid, _, hnext, _, _⟩ := sqliteInsert_ok hins
        have hst : sqliteStep st (SOp.ins c e md now fault) = (st1, some id) := by
          simp [sqliteStep, hins]
        simp only [sqliteRun, hst]
        have h1 := ih st1
        constructor
        · intro j hj
          simp only [List.mem_append, List.mem_singleton] at hj
          rcases hj with rfl | hj
          · omega
          · have := h1.1 j hj
            omega
        · refine List.Pairwise.cons ?_ h1.2
          intro j hj
          have := h1.1 j hj
          omega

/-- Along any Postgres trace, returned ids are at least the starting
sequence value and strictly increase. -/
theorem pgRun_ids (st : PgState) (ops : List PgOp) :
    (∀ id ∈ (pgRun st ops).2, st.nextId ≤ id) ∧
    ((pgRun st ops).2).Pairwise (· < ·) := by
  induction ops generalizing st with
  | nil => exact ⟨fun id h => (nomatch h), List.Pairwise.nil⟩
  | cons op ops ih =>
    cases op with
    | del did =>
      have hst : pgStep st (PgOp.del did) = (pgDelete st did, none) := rfl
      have hnext : (pgDelete st did).nextId = st.nextId := rfl
      simp only [pgRun, hst]
      simpa [hnext] using ih (pgDelete st did)
    | ins c e md now fault =>
      cases hins : pgInsert st c e md now fault with
      | error msg =>
        have hst : pgStep st (PgOp.ins c e md now fault) = (st, none) := by
          simp [pgStep, hins]
        simp only [pgRun, hst]
        simpa using ih st
      | ok pr =>
        obtain ⟨st1, id⟩ := pr
        obtain ⟨hid, _, hnext, _⟩ := pgInsert_ok hins
        have hst : pgStep st (PgOp.ins c e md now fault) = (st1, some id) := by
          simp [pgStep, hins]
        simp only [pgRun, hst]
        have h1 := ih st1
        constructor
        · intro j hj
          simp only [List.mem_append, List.mem_singleton] at hj
          rcases hj with rfl | hj
          · omega
          · have := h1.1 j hj
            omega
        · refine List.Pairwise.cons ?_ h1.2
          intro j hj
          have := h1.1 j hj
          omega

/-- C3: on both backends `insert` is atomic — it either commits the
metadata/content row together with its vector entry and returns the
new id, or fails as a whole with a `VectorStoreError` leaving the store
unchanged (the error carries no successor state: the transaction rolled
back) — any injected backend fault or dimension mismatch yields such an
error, and across any trace of operations on a fresh store the returned
ids are pairwise distinct (never reused, even after deletes). -/
theorem C3_insert_atomicity :
    (∀ (st : SqliteState) (c : String) (e : Vec) (md : Metadata) (now : String)
        (fault : Option InsertFault),
      (∃ st1 id row, sqliteInsert st c e md now fault = Except.ok (st1, id) ∧
        row.rowid = id ∧ row.content = c ∧
        st1.memories = st.memories ++ [row] ∧ st1.vec = st.vec ++ [(id, e)]) ∨
      (∃ msg, sqliteInsert st c e md now fault = Except.error msg)) ∧
    (∀ (st : SqliteState) (c : String) (e : Vec) (md : Metadata) (now : String)
        (fault : Option InsertFault), fault ≠ none ∨ List.length e ≠ st.dim →
      ∃ msg, sqliteInsert st c e md now fault = Except.error msg) ∧
    (∀ (dim : Nat) (ops : List SOp), ((sqliteRun (sqliteInit dim) ops).2).Nodup) ∧
    (∀ (st : PgState) (c : String) (e : Vec) (md : Metadata) (now : String)
        (fault : Bool),
      (∃ st1 id row, pgInsert st c e md now fault = Except.ok (st1, id) ∧
        row.id = id ∧ row.content = c ∧ row.embedding = e ∧
        st1.rows = st.rows ++ [row]) ∨
      (∃ msg, pgInsert st c e md now fault = Except.error msg)) ∧
    (∀ (st : PgState) (c : String) (e : Vec) (md : Metadata) (now : String)
        (fault : Bool), fault = true ∨ List.length e ≠ st.dim →
      ∃ msg, pgInsert st c e md now fault = Except.error msg) ∧
    (∀ (dim : Nat) (ops : List PgOp), ((pgRun (pgInit dim) ops).2).Nodup) := by
  refine ⟨?_, ?_, ?_, ?_, ?_, ?_⟩
  · intro st c e md now fault
    cases h : sqliteInsert st c e md now fault with
    | error msg => exact Or.inr ⟨msg, rfl⟩
    | ok pr =>
      obtain ⟨st1, id⟩ := pr
      obtain ⟨hid, _, _, hmem, hvec, _⟩ := sqliteInsert_ok h
      exact Or.inl ⟨st1, id, _, rfl, hid.symm, rfl, hmem, by rw [hvec, hid]⟩
  · intro st c e md now fault h
    rcases fault with _ | f
    · have hd : List.length e ≠ st.dim := by
        rcases h with h | h
        · exact absurd rfl h
        · exact h
      exact ⟨"Failed to insert embeddings", by simp [sqliteInsert, hd]⟩
    · cases f with
      | metaFail => exact ⟨"Failed to insert metadata", by simp [sqliteInsert]⟩
      | vecFail => exact ⟨"Failed to insert embeddings", by simp [sqliteInsert]⟩
      | commitFail =>
        by_cases hd : List.length e = st.dim
        · exact ⟨"Failed to commit transaction", by simp [sqliteInsert, hd]⟩
        · exact ⟨"Failed to insert embeddings", by simp [sqliteInsert, hd]⟩
  · intro dim ops
    exact ((sqliteRun_ids (sqliteInit dim) ops).2).imp Nat.ne_of_lt
  · intro st c e md now fault
    cases h : pgInsert st c e md now fault with
    | error msg => exact Or.inr ⟨msg, rfl⟩
    | ok pr =>
      obtain ⟨st1, id⟩ := pr
      obtain ⟨hid, _, _, hrows, _⟩ := pgInsert_ok h
      exact Or.inl ⟨st1, id, _, rfl, hid.symm, rfl, rfl, hrows⟩
  · intro st c e md now fault h
    have : fault = true ∨ List.length e ≠ st.dim := h
    exact ⟨"Failed to insert memory into Postgres", by
      unfold pgInsert
      rcases this with h1 | h1 <;> simp [h1]⟩
  · intro dim ops
    exact ((pgRun_ids (pgInit dim) ops).2).imp Nat.ne_of_lt

/-- Witness for C3: a two-dimensional vector against a one-dimensional
store errors on both backends (nothing committed, storage error
raised). -/
theorem C3_insert_atomicity_witness :
    (sqliteInsert (sqliteInit 1) "c" [(0 : Rat), 1] [] "t" none).isOk = false ∧
    (pgInsert (pgInit 1) "c" [(0 : Rat), 1] [] "t" false).isOk = false := by
  constructor
  · obtain ⟨msg, h⟩ := C3_insert_atomicity.2.1 (sqliteInit 1) "c" [(0 : Rat), 1]
      [] "t" none (Or.inr (by decide))
    rw [h]
    rfl
  · obtain ⟨msg, h⟩ := C3_insert_atomicity.2.2.2.2.1 (pgInit 1) "c" [(0 : Rat), 1]
      [] "t" false (Or.inr (by decide))
    rw [h]
    rfl

/-- The declared dimension and the all-vectors-have-it invariant are
preserved along any SQLite trace. -/
theorem sqliteRun_vecdim (st : SqliteState) (ops : List SOp)
    (h0 : ∀ p ∈ st.vec, List.length p.2 = st.dim) :
    ((sqliteRun st ops).1).dim = st.dim ∧
    ∀ p ∈ ((sqliteRun st ops).1).vec, List.length p.2 = st.dim := by
  induction ops generalizing st with
  | nil => exact ⟨rfl, h0⟩
  | cons op ops ih =>
    cases op with
    | del did =>
      have hst : sqliteStep st (SOp.del did) = (sqliteDelete st did, none) := rfl
      simp only [sqliteRun, hst]
      have hsub : ∀ p ∈ (sqliteDelete st did).vec, List.length p.2 = (sqliteDelete st did).dim := by
        intro p hp
        exact h0 p (List.mem_of_mem_filter hp)
      have := ih (sqliteDelete st did) hsub
      exact this
    | ins c e md now fault =>
      cases hins : sqliteInsert st c e md now fault with
      | error msg =>
        have hst : sqliteStep st (SOp.ins c e md now fault) = (st, none) := by
          simp [sqliteStep, hins]
        simp only [sqliteRun, hst]
        exact ih st h0
      | ok pr =>
        obtain ⟨st1, id⟩ := pr
        obtain ⟨_, hdim, _, _, hvec, hlen⟩ := sqliteInsert_ok hins
        have hst : sqliteStep st (SOp.ins c e md now fault) = (st1, some id) := by
          simp [sqliteStep, hins]
        simp only [sqliteRun, hst]
        have h1 : ∀ p ∈ st1.vec, List.length p.2 = st1.dim := by
          intro p hp
          rw [hvec] at hp
          rw [hdim]
          rcases List.mem_append.mp hp with hp | hp
          · exact h0 p hp
          · rw [List.mem_singleton.mp hp]
            exact hlen
        have := ih st1 h1
        rw [hdim] at this
        exact this

/-- The declared dimension and the embedding-dimension invariant are
preserved along any Postgres trace. -/
theorem pgRun_embdim (st : PgState) (ops : List PgOp)
    (h0 : ∀ r ∈ st.rows, List.length r.embedding = st.dim) :
    ((pgRun st ops).1).dim = st.dim ∧
    ∀ r ∈ ((pgRun st ops).1).rows, List.length r.embedding = st.dim := by
  induction ops generalizing st with
  | nil => exact ⟨rfl, h0⟩
  | cons op ops ih =>
    cases op with
    | del did =>
      have hst : pgStep st (PgOp.del did) = (pgDelete st did, none) := rfl
      simp only [pgRun, hst]
      have hsub : ∀ r ∈ (pgDelete st did).rows, List.length r.embedding = (pgDelete st did).dim := by
        intro r hr
        exact h0 r (List.mem_of_mem_filter hr)
      exact ih (pgDelete st did) hsub
    | ins c e md now fault =>
      cases hins : pgInsert st c e md now fault with
      | error msg =>
        have hst : pgStep st (PgOp.ins c e md now fault) = (st, none) := by
          simp [pgStep, hins]
        simp only [pgRun, hst]
        exact ih st h0
      | ok pr =>
        obtain ⟨st1, id⟩ := pr
        obtain ⟨_, hdim, _, hrows, hlen⟩ := pgInsert_ok hins
        have hst : pgStep st (PgOp.ins c e md now fault) = (st1, some id) := by
          simp [pgStep, hins]
        simp only [pgRun, hst]
        have h1 : ∀ r ∈ st1.rows, List.length r.embedding = st1.dim := by
          intro r hr
          rw [hrows] at hr
          rw [hdim]
          rcases List.mem_append.mp hr with hr | hr
          · exact h0 r hr
          · rw [List.mem_singleton.mp hr]
            exact hlen
        have := ih st1 h1
        rw [hdim] at this
        exact this

/-- C5: on either backend, every vector held by a store whose declared
dimension is `dim` (fixed at construction) has length `dim`, through
any trace of inserts and deletes from the fresh store; and an insert
whose vector length differs from the declared dimension fails with a
storage error rather than truncating or padding (so by the first part
it leaves no record behind). -/
theorem C5_dimension_invariant :
    (∀ (dim : Nat) (ops : List SOp),
      ∀ p ∈ ((sqliteRun (sqliteInit dim) ops).1).vec, List.length p.2 = dim) ∧
    (∀ (st : SqliteState) (c : String) (e : Vec) (md : Metadata) (now : String),
      List.length e ≠ st.dim →
      sqliteInsert st c e md now none = Except.error "Failed to insert embeddings") ∧
    (∀ (dim : Nat) (ops : List PgOp),
      ∀ r ∈ ((pgRun (pgInit dim) ops).1).rows, List.length r.embedding = dim) ∧
    (∀ (st : PgState) (c : String) (e : Vec) (md : Metadata) (now : String),
      List.length e ≠ st.dim →
      pgInsert st c e md now false = Except.error "Failed to insert memory into Postgres") := by
  refine ⟨?_, ?_, ?_, ?_⟩
  · intro dim ops
    exact (sqliteRun_vecdim (sqliteInit dim) ops (fun p hp => nomatch hp)).2
  · intro st c e md now hlen
    simp [sqliteInsert, hlen]
  · intro dim ops
    exact (pgRun_embdim (pgInit dim) ops (fun r hr => nomatch hr)).2
  · intro st c e md now hlen
    simp [pgInsert, hlen]

/-- Witness for C5: after one good insert and one mismatched insert on
a 1-dimensional store, the surviving vector entry has length 1, and
the mismatched insert itself errored on both backends. -/
theorem C5_dimension_invariant_witness :
    List.length (((1, [(2 : Rat)]) : Nat × Vec)).2 = 1 ∧
    sqliteInsert (sqliteInit 1) "bad" [(2 : Rat), 3] [] "t" none =
      Except.error "Failed to insert embeddings" ∧
    pgInsert (pgInit 1) "bad" [(2 : Rat), 3] [] "t" false =
      Except.error "Failed to insert memory into Postgres" :=
  ⟨C5_dimension_invariant.1 1
      [SOp.ins "good" [(2 : Rat)] [] "t" none,
       SOp.ins "bad" [(2 : Rat), 3] [] "t" none] (1, [(2 : Rat)]) (by decide),
   C5_dimension_invariant.2.1 (sqliteInit 1) "bad" [(2 : Rat), 3] [] "t" (by decide),
   C5_dimension_invariant.2.2.2 (pgInit 1) "bad" [(2 : Rat), 3] [] "t" (by decide)⟩

/-- Along any SQLite trace from a well-formed state, every metadata row
id stays below the `AUTOINCREMENT` counter and every vector row has a
matching metadata row (no orphaned vectors). -/
theorem sqliteRun_wf (st : SqliteState) (ops : List SOp)
    (h1 : ∀ m ∈ st.memories, m.rowid < st.nextRowid)
    (h2 : ∀ p ∈ st.vec, ∃ m, m ∈ st.memories ∧ m.rowid = p.1) :
    (∀ m ∈ (sqliteRun st ops).1.memories, m.rowid < (sqliteRun st ops).1.nextRowid) ∧
    (∀ p ∈ (sqliteRun st ops).1.vec,
      ∃ m, m ∈ (sqliteRun st ops).1.memories ∧ m.rowid = p.1) := by
  induction ops generalizing st with
  | nil => exact ⟨h1, h2⟩
  | cons op ops ih =>
    cases op with
    | del did =>
      have hst : sqliteStep st (SOp.del did) = (sqliteDelete st did, none) := rfl
      simp only [sqliteRun, hst]
      refine ih (sqliteDelete st did) ?_ ?_
      · intro m hm
        exact h1 m (List.mem_of_mem_filter hm)
      · intro p hp
        have hpv := List.mem_filter.mp hp
        obtain ⟨m, hm, hmid⟩ := h2 p hpv.1
        have hnotdel : (m.rowid == did) = false := by
          by_contra hcon
          have heq : (m.rowid == did) = true := by
            cases hb : (m.rowid == did) with
            | true => rfl
            | false => exact absurd hb hcon
          have hmdel : m ∈ List.filter (fun m2 => m2.rowid == did) st.memories :=
            List.mem_filter.mpr ⟨hm, heq⟩
          have hany : List.any (List.filter (fun m2 => m2.rowid == did) st.memories)
              (fun m2 => m2.rowid == p.1) = true :=
            List.any_eq_true.mpr ⟨m, hmdel, by rw [hmid]; exact beq_self_eq_true p.1⟩
          have := hpv.2
          simp only [hany] at this
          exact absurd this (by simp)
        refine ⟨m, List.mem_filter.mpr ⟨hm, ?_⟩, hmid⟩
        simp [hnotdel]
    | ins c e md now fault =>
      cases hins : sqliteInsert st c e md now fault with
      | error msg =>
        have hst : sqliteStep st (SOp.ins c e md now fault) = (st, none) := by
          simp [sqliteStep, hins]
        simp only [sqliteRun, hst]
        exact ih st h1 h2
      | ok pr =>
        obtain ⟨st1, id⟩ := pr
        obtain ⟨hid, _, hnext, hmem, hvec, _⟩ := sqliteInsert_ok hins
        have hst : sqliteStep st (SOp.ins c e md now fault) = (st1, some id) := by
          simp [sqliteStep, hins]
        simp only [sqliteRun, hst]
        refine ih st1 ?_ ?_
        · intro m hm
          rw [hmem] at hm
          rw [hnext]
          rcases List.mem_append.mp hm with hm | hm
          · exact Nat.lt_succ_of_lt (h1 m hm)
          · rw [List.mem_singleton.mp hm]
            exact Nat.lt_succ_self _
        · intro p hp
          rw [hvec] at hp
          rcases List.mem_append.mp hp with hp | hp
          · obtain ⟨m, hm, hmid⟩ := h2 p hp
            exact ⟨m, by rw [hmem]; exact List.mem_append_left _ hm, hmid⟩
          · rw [List.mem_singleton.mp hp]
            refine ⟨_, by rw [hmem]; exact List.mem_append_right _ (List.mem_singleton_self _), rfl⟩

/-- Once a row id is absent (and below the id counter), any further
SQLite trace keeps it absent. -/
theorem sqliteRun_absent (st : SqliteState) (ops : List SOp) (did : Nat)
    (h1 : did < st.nextRowid) (h2 : ∀ m ∈ st.memories, m.rowid ≠ did) :
    did < (sqliteRun st ops).1.nextRowid ∧
    ∀ m ∈ (sqliteRun st ops).1.memories, m.rowid ≠ did := by
  induction ops generalizing st with
  | nil => exact ⟨h1, h2⟩
  | cons op ops ih =>
    cases op with
    | del d2 =>
      have hst : sqliteStep st (SOp.del d2) = (sqliteDelete st d2, none) := rfl
      simp only [sqliteRun, hst]
      exact ih (sqliteDelete st d2) h1 (fun m hm => h2 m (List.mem_of_mem_filter hm))
    | ins c e md now fault =>
      cases hins : sqliteInsert st c e md now fault with
      | error msg =>
        have hst : sqliteStep st (SOp.ins c e md now fault) = (st, none) := by
          simp [sqliteStep, hins]
        simp only [sqliteRun, hst]
        exact ih st h1 h2
      | ok pr =>
        obtain ⟨st1, id⟩ := pr
        obtain ⟨hid, _, hnext, hmem, _, _⟩ := sqliteInsert_ok hins
        have hst : sqliteStep st (SOp.ins c e md now fault) = (st1, some id) := by
          simp [sqliteStep, hins]
        simp only [sqliteRun, hst]
        refine ih st1 (by omega) ?_
        intro m hm
        rw [hmem] at hm
        rcases List.mem_append.mp hm with hm | hm
        · exact h2 m hm
        · rw [List.mem_singleton.mp hm]
          show st.nextRowid ≠ did
          omega

/-- Every SQLite search result id belongs to a current metadata row. -/
theorem sqliteSearch_id_mem {st : SqliteState} {dist : Vec → Vec → Rat} {q : Vec}
    {limit : Nat} {f : MemoryFilter} {r : MemoryResult}
    (h : r ∈ sqliteSearch st dist q limit f) :
    ∃ m, m ∈ st.memories ∧ r.id = m.rowid := by
  simp only [sqliteSearch, List.mem_map, List.mem_filter] at h
  obtain ⟨p, ⟨hknn, _⟩, rfl⟩ := h
  have h1 : p ∈ List.insertionSort (distLE dist q) (joinRows st) :=
    List.mem_of_mem_take hknn
  have h2 : p ∈ joinRows st := (List.mem_insertionSort (distLE dist q)).mp h1
  simp only [joinRows, List.mem_filterMap] at h2
  obtain ⟨rv, _, hfind⟩ := h2
  cases hf : List.find? (fun m => m.rowid == rv.1) st.memories with
  | none => rw [hf] at hfind; exact absurd hfind (by simp)
  | some m =>
    rw [hf] at hfind
    have hp : (m, rv.2) = p := by simpa using hfind
    have hm : m ∈ st.memories := List.mem_of_find?_eq_some hf
    refine ⟨m, hm, ?_⟩
    rw [← hp]
    rfl

/-- Once a row id is absent (and below the sequence), any further
Postgres trace keeps it absent. -/
theorem pgRun_absent (st : PgState) (ops : List PgOp) (did : Nat)
    (h1 : did < st.nextId) (h2 : ∀ r ∈ st.rows, r.id ≠ did) :
    did < (pgRun st ops).1.nextId ∧
    ∀ r ∈ (pgRun st ops).1.rows, r.id ≠ did := by
  induction ops generalizing st with
  | nil => exact ⟨h1, h2⟩
  | cons op ops ih =>
    cases op with
    | del d2 =>
      have hst : pgStep st (PgOp.del d2) = (pgDelete st d2, none) := rfl
      simp only [pgRun, hst]
      exact ih (pgDelete st d2) h1 (fun r hr => h2 r (List.mem_of_mem_filter hr))
    | ins c e md now fault =>
      cases hins : pgInsert st c e md now fault with
      | error msg =>
        have hst : pgStep st (PgOp.ins c e md now fault) = (st, none) := by
          simp [pgStep, hins]
        simp only [pgRun, hst]
        exact ih st h1 h2
      | ok pr =>
        obtain ⟨st1, id⟩ := pr
        obtain ⟨hid, _, hnext, hrows, _⟩ := pgInsert_ok hins
        have hst : pgStep st (PgOp.ins c e md now fault) = (st1, some id) := by
          simp [pgStep, hins]
        simp only [pgRun, hst]
        refine ih st1 (by omega) ?_
        intro r hr
        rw [hrows] at hr
        rcases List.mem_append.mp hr with hr | hr
        · exact h2 r hr
        · rw [List.mem_singleton.mp hr]
          show st.nextId ≠ did
          omega

/-- Every Postgres search result id belongs to a current row. -/
theorem pgSearch_id_mem {st : PgState} {dist : Vec → Vec → Rat} {q : Vec}
    {limit : Nat} {f : MemoryFilter} {r : MemoryResult}
    (h : r ∈ pgSearch st dist q limit f) :
    ∃ row, row ∈ st.rows ∧ r.id = row.id := by
  simp only [pgSearch, List.mem_map] at h
  obtain ⟨row, hmem, rfl⟩ := h
  have h1 : row ∈ List.insertionSort (pgDistLE dist q) (List.filter (pgMatches f) st.rows) :=
    List.mem_of_mem_take hmem
  have h2 := List.mem_filter.mp ((List.mem_insertionSort (pgDistLE dist q)).mp h1)
  exact ⟨row, h2.1, rfl⟩

/-- C9: on either backend, after `delete(id)` completes on a reachable
store, both the metadata row and the vector entry of that id are gone
(the SQLite cleanup trigger removes the vector row of every deleted
metadata row, and vectors are never orphaned), and no later search —
after any further sequence of inserts and deletes — ever returns a
result with that id, since auto-increment ids are never reassigned. -/
theorem C9_delete_permanence :
    (∀ (dim : Nat) (ops : List SOp) (did : Nat),
      did < ((sqliteRun (sqliteInit dim) ops).1).nextRowid →
      (∀ m ∈ (sqliteDelete (sqliteRun (sqliteInit dim) ops).1 did).memories,
        m.rowid ≠ did) ∧
      (∀ p ∈ (sqliteDelete (sqliteRun (sqliteInit dim) ops).1 did).vec, p.1 ≠ did) ∧
      (∀ (ops2 : List SOp) (dist : Vec → Vec → Rat) (q : Vec) (limit : Nat)
          (f : MemoryFilter),
        ∀ r ∈ sqliteSearch
            (sqliteRun (sqliteDelete (sqliteRun (sqliteInit dim) ops).1 did) ops2).1
            dist q limit f, r.id ≠ did)) ∧
    (∀ (dim : Nat) (ops : List PgOp) (did : Nat),
      did < ((pgRun (pgInit dim) ops).1).nextId →
      (∀ row ∈ (pgDelete (pgRun (pgInit dim) ops).1 did).rows, row.id ≠ did) ∧
      (∀ (ops2 : List PgOp) (dist : Vec → Vec → Rat) (q : Vec) (limit : Nat)
          (f : MemoryFilter),
        ∀ r ∈ pgSearch (pgRun (pgDelete (pgRun (pgInit dim) ops).1 did) ops2).1
            dist q limit f, r.id ≠ did)) := by
  constructor
  · intro dim ops did hlt
    have hwf := sqliteRun_wf (sqliteInit dim) ops
      (fun m hm => nomatch hm) (fun p hp => nomatch hp)
    have part1 : ∀ m ∈ (sqliteDelete (sqliteRun (sqliteInit dim) ops).1 did).memories,
        m.rowid ≠ did := by
      intro m hm
      have h := List.mem_filter.mp hm
      simpa using h.2
    refine ⟨part1, ?_, ?_⟩
    · intro p hp
      intro hcon
      have hpv := List.mem_filter.mp hp
      obtain ⟨m, hm, hmid⟩ := hwf.2 p hpv.1
      have hmdel : m ∈ List.filter (fun m2 => m2.rowid == did)
          (sqliteRun (sqliteInit dim) ops).1.memories :=
        List.mem_filter.mpr ⟨hm, by rw [hmid, hcon]; exact beq_self_eq_true did⟩
      have hany : List.any
          (List.filter (fun m2 => m2.rowid == did) (sqliteRun (sqliteInit dim) ops).1.memories)
          (fun m2 => m2.rowid == p.1) = true :=
        List.any_eq_true.mpr ⟨m, hmdel, by rw [hmid]; exact beq_self_eq_true p.1⟩
      have hfalse := hpv.2
      simp only [sqliteDelete] at hfalse
      rw [hany] at hfalse
      exact absurd hfalse (by simp)
    · intro ops2 dist q limit f r hr
      have habs := sqliteRun_absent (sqliteDelete (sqliteRun (sqliteInit dim) ops).1 did)
        ops2 did hlt part1
      obtain ⟨m, hm, hid⟩ := sqliteSearch_id_mem hr
      rw [hid]
      exact habs.2 m hm
  · intro dim ops did hlt
    have part1 : ∀ row ∈ (pgDelete (pgRun (pgInit dim) ops).1 did).rows,
        row.id ≠ did := by
      intro row hrow
      have h := List.mem_filter.mp hrow
      simpa using h.2
    refine ⟨part1, ?_⟩
    intro ops2 dist q limit f r hr
    have habs := pgRun_absent (pgDelete (pgRun (pgInit dim) ops).1 did) ops2 did hlt part1
    obtain ⟨row, hrow, hid⟩ := pgSearch_id_mem hr
    rw [hid]
    exact habs.2 row hrow

/-- Witness for C9: two inserts, then `delete(1)`, on a fresh
1-dimensional SQLite store; the surviving row and the single result of
an unfiltered search after the deletion both carry an id other than
1. -/
theorem C9_delete_permanence_witness :
    ({ rowid := 2, content := "B", role := "user", entityId := none,
       processId := none, sessionId := none, createdAt := "t" } : MemRow).rowid ≠ 1 ∧
    (sqliteToResult headDist [(0 : Rat)]
      ({ rowid := 2, content := "B", role := "user", entityId := none,
         processId := none, sessionId := none, createdAt := "t" }, [(5 : Rat)])).id ≠ 1 := by
  have h := C9_delete_permanence.1 1
    [SOp.ins "A" [(0 : Rat)] [] "t" none, SOp.ins "B" [(5 : Rat)] [] "t" none]
    1 (by decide)
  constructor
  · exact h.1 _ (by decide)
  · exact h.2.2 [] headDist [(0 : Rat)] 5 {} _ (by decide)

/-- Running an event list splits over append. -/
theorem queueRun_append (s : QueueState) (t1 t2 : List QEvent) :
    queueRun s (t1 ++ t2) =
      (queueRun s t1).bind (fun s1 => queueRun s1 t2) := by
  induction t1 generalizing s with
  | nil => rfl
  | cons e t1 ih =>
    simp only [List.cons_append, queueRun]
    cases queueApply s e with
    | none => rfl
    | some s1 => exact ih s1

/-- Lookup by one key is unaffected by filtering out a different key. -/
theorem find?_filter_ne_key (w w2 : Nat) (hne : w ≠ w2) (l : List (Nat × List Nat)) :
    List.find? (fun p => p.1 == w) (List.filter (fun q => ¬ q.1 == w2) l) =
      List.find? (fun p => p.1 == w) l := by
  induction l with
  | nil => rfl
  | cons a l ih =>
    by_cases ha2 : a.1 = w2
    · have hnw : ¬ a.1 = w := by
        rw [ha2]
        exact fun hcon => hne hcon.symm
      rw [List.filter_cons_of_neg (by simp [ha2]),
        List.find?_cons_of_neg _ (by simp [hnw])]
      exact ih
    · by_cases haw : a.1 = w
      · rw [List.filter_cons_of_pos (by simp [ha2]),
          List.find?_cons_of_pos _ (by simp [haw]),
          List.find?_cons_of_pos _ (by simp [haw])]
      · rw [List.filter_cons_of_pos (by simp [ha2]),
          List.find?_cons_of_neg _ (by simp [haw]),
          List.find?_cons_of_neg _ (by simp [haw])]
        exact ih

/-- A tracked operation stays tracked across every event except a
`waitEnd` (which clears the `pendingPromises` array). -/
theorem queueApply_tracked_pres {s s2 : QueueState} {e : QEvent} {op : Nat}
    (happ : queueApply s e = some s2) (hne : ∀ w2, e ≠ QEvent.waitEnd w2)
    (hop : op ∈ s.tracked) : op ∈ s2.tracked := by
  cases e with
  | enqueue op2 =>
    simp only [queueApply] at happ
    split at happ
    · exact absurd happ (by simp)
    · obtain rfl := Option.some.inj happ
      exact List.mem_append_left _ hop
  | settle op2 =>
    simp only [queueApply] at happ
    split at happ
    · obtain rfl := Option.some.inj happ
      exact hop
    · exact absurd happ (by simp)
  | waitBegin w2 =>
    simp only [queueApply] at happ
    split at happ
    · exact absurd happ (by simp)
    · obtain rfl := Option.some.inj happ
      exact hop
  | waitEnd w2 => exact absurd rfl (hne w2)

/-- Run version of `queueApply_tracked_pres` for `waitEnd`-free event
lists. -/
theorem queueRun_tracked_pres {s s2 : QueueState} {t : List QEvent} {op : Nat}
    (hrun : queueRun s t = some s2) (hne : ∀ e ∈ t, ∀ w2, e ≠ QEvent.waitEnd w2)
    (hop : op ∈ s.tracked) : op ∈ s2.tracked := by
  induction t generalizing s with
  | nil => exact Option.some.inj hrun ▸ hop
  | cons e t ih =>
    simp only [queueRun] at hrun
    cases happ : queueApply s e with
    | none => rw [happ] at hrun; exact absurd hrun (by simp)
    | some s1 =>
      rw [happ] at hrun
      exact ih hrun (fun e2 he2 => hne e2 (List.mem_cons_of_mem e he2))
        (queueApply_tracked_pres happ (hne e (List.mem_cons_self e t)) hop)

/-- Every wait in flight was begun; preserved by every event. -/
theorem queueApply_coh {s s2 : QueueState} {e : QEvent}
    (happ : queueApply s e = some s2)
    (hcoh : ∀ p ∈ s.waits, p.1 ∈ s.waitsBegun) :
    ∀ p ∈ s2.waits, p.1 ∈ s2.waitsBegun := by
  cases e with
  | enqueue op2 =>
    simp only [queueApply] at happ
    split at happ
    · exact absurd happ (by simp)
    · obtain rfl := Option.some.inj happ
      exact hcoh
  | settle op2 =>
    simp only [queueApply] at happ
    split at happ
    · obtain rfl := Option.some.inj happ
      exact hcoh
    · exact absurd happ (by simp)
  | waitBegin w2 =>
    simp only [queueApply] at happ
    split at happ
    · exact absurd happ (by simp)
    · obtain rfl := Option.some.inj happ
      intro p hp
      rcases List.mem_append.mp hp with hp | hp
      · exact List.mem_append_left _ (hcoh p hp)
      · rw [List.mem_singleton.mp hp]
        exact List.mem_append_right _ (List.mem_singleton_self _)
  | waitEnd w2 =>
    simp only [queueApply] at happ
    split at happ
    · exact absurd happ (by simp)
    · split at happ
      · obtain rfl := Option.some.inj happ
        intro p hp
        exact hcoh p (List.mem_of_mem_filter hp)
      · exact absurd happ (by simp)

/-- Run version of `queueApply_coh`. -/
theorem queueRun_coh {s s2 : QueueState} {t : List QEvent}
    (hrun : queueRun s t = some s2)
    (hcoh : ∀ p ∈ s.waits, p.1 ∈ s.waitsBegun) :
    ∀ p ∈ s2.waits, p.1 ∈ s2.waitsBegun := by
  induction t generalizing s with
  | nil => exact Option.some.inj hrun ▸ hcoh
  | cons e t ih =>
    simp only [queueRun] at hrun
    cases happ : queueApply s e with
    | none => rw [happ] at hrun; exact absurd hrun (by simp)
    | some s1 =>
      rw [happ] at hrun
      exact ih hrun (queueApply_coh happ hcoh)

/-- The snapshot of a begun wait is preserved verbatim by every event
other than its own `waitEnd`. -/
theorem queueApply_waitfind_pres {s s2 : QueueState} {e : QEvent} {w : Nat}
    {snap : List Nat}
    (happ : queueApply s e = some s2) (hnew : e ≠ QEvent.waitEnd w)
    (hbegun : w ∈ s.waitsBegun)
    (hfind : List.find? (fun p => p.1 == w) s.waits = some (w, snap)) :
    w ∈ s2.waitsBegun ∧
    List.find? (fun p => p.1 == w) s2.waits = some (w, snap) := by
  cases e with
  | enqueue op2 =>
    simp only [queueApply] at happ
    split at happ
    · exact absurd happ (by simp)
    · obtain rfl := Option.some.inj happ
      exact ⟨hbegun, hfind⟩
  | settle op2 =>
    simp only [queueApply] at happ
    split at happ
    · obtain rfl := Option.some.inj happ
      exact ⟨hbegun, hfind⟩
    · exact absurd happ (by simp)
  | waitBegin w2 =>
    simp only [queueApply] at happ
    split at happ
    · exact absurd happ (by simp)
    · obtain rfl := Option.some.inj happ
      refine ⟨List.mem_append_left _ hbegun, ?_⟩
      rw [List.find?_append, hfind]
      rfl
  | waitEnd w2 =>
    have hw2 : w2 ≠ w := fun hcon => hnew (by rw [hcon])
    simp only [queueApply] at happ
    split at happ
    · exact absurd happ (by simp)
    · split at happ
      · obtain rfl := Option.some.inj happ
        refine ⟨hbegun, ?_⟩
        rw [find?_filter_ne_key w w2 (fun hcon => hw2 hcon.symm)]
        exact hfind
      · exact absurd happ (by simp)

/-- Run version of `queueApply_waitfind_pres` for event lists free of
`waitEnd w`. -/
theorem queueRun_waitfind_pres {s s2 : QueueState} {t : List QEvent} {w : Nat}
    {snap : List Nat}
    (hrun : queueRun s t = some s2) (hnew : ∀ e ∈ t, e ≠ QEvent.waitEnd w)
    (hbegun : w ∈ s.waitsBegun)
    (hfind : List.find? (fun p => p.1 == w) s.waits = some (w, snap)) :
    w ∈ s2.waitsBegun ∧
    List.find? (fun p => p.1 == w) s2.waits = some (w, snap) := by
  induction t generalizing s with
  | nil => exact Option.some.inj hrun ▸ ⟨hbegun, hfind⟩
  | cons e t ih =>
    simp only [queueRun] at hrun
    cases happ : queueApply s e with
    | none => rw [happ] at hrun; exact absurd hrun (by simp)
    | some s1 =>
      rw [happ] at hrun
      obtain ⟨hb1, hf1⟩ := queueApply_waitfind_pres happ
        (hnew e (List.mem_cons_self e t)) hbegun hfind
      exact ih hrun (fun e2 he2 => hnew e2 (List.mem_cons_of_mem e he2)) hb1 hf1

/-- If the `waitEnd` of a wait whose snapshot is `snap` is enabled,
every operation of `snap` has settled. -/
theorem waitEnd_enabled_settled {s : QueueState} {w : Nat} {snap : List Nat}
    (hfind : List.find? (fun p => p.1 == w) s.waits = some (w, snap))
    (hen : (queueApply s (QEvent.waitEnd w)).isSome = true) :
    ∀ x ∈ snap, x ∈ s.settled := by
  simp only [queueApply, hfind] at hen
  split at hen
  · next hall =>
    intro x hx
    have := List.all_eq_true.mp hall x hx
    simpa using this
  · exact absurd hen (by simp)

/-- Counterexample to C4 as stated: operation 2 is queued while wait 10
is in flight (after its `Promise.all` snapshot).  When wait 10 resolves
it executes `this.pendingPromises = []`, dropping operation 2 from
tracking; the subsequent wait 11 — issued with no further writes in
flight — begins and ends immediately even though operation 2 has never
settled, and the final tracked set is empty, so no later `wait()` will
ever await operation 2 either: the claimed full drain fails. -/
theorem C4_counterexample :
    queueRun queueInit
        [QEvent.enqueue 1, QEvent.settle 1, QEvent.waitBegin 10, QEvent.enqueue 2,
         QEvent.waitEnd 10, QEvent.waitBegin 11, QEvent.waitEnd 11] =
      some { queued := [1, 2], tracked := [], settled := [1],
             waitsBegun := [10, 11], waits := [] } ∧
    2 ∉ ({ queued := [1, 2], tracked := [], settled := [1],
           waitsBegun := [10, 11], waits := [] } : QueueState).settled ∧
    2 ∉ ({ queued := [1, 2], tracked := [], settled := [1],
           waitsBegun := [10, 11], waits := [] } : QueueState).tracked := by
  refine ⟨by decide, by decide, by decide⟩

/-- C4 (amended): `wait()` resolves immediately when nothing is pending
— from any state with an empty tracked set, a fresh `waitBegin`/`waitEnd`
pair runs to completion at once.  Every operation queued before a
`wait()` is invoked and still tracked at that moment (no `waitEnd`
cleared the set in between) is in that wait's snapshot, and the wait
can only resolve after all of them have settled.  An operation queued
concurrently with an in-flight `wait()` is dropped from the tracked set
when that wait clears it, so a subsequent `wait()` does not await it
(see the counterexample): full drain holds only for operations whose
enqueue was not overlapped by a clearing `waitEnd`. -/
theorem C4_wait_snapshot_drain :
    (∀ (s : QueueState) (w : Nat), s.tracked = [] → w ∉ s.waitsBegun →
      (∀ p ∈ s.waits, p.1 ≠ w) →
      queueRun s [QEvent.waitBegin w, QEvent.waitEnd w] ≠ none) ∧
    (∀ (t0 t1 t2 : List QEvent) (op w : Nat) (s3 : QueueState),
      (∀ e ∈ t1, ∀ w2, e ≠ QEvent.waitEnd w2) →
      (∀ e ∈ t2, e ≠ QEvent.waitEnd w) →
      queueRun queueInit
        (t0 ++ [QEvent.enqueue op] ++ t1 ++ [QEvent.waitBegin w] ++ t2) = some s3 →
      (queueApply s3 (QEvent.waitEnd w)).isSome = true →
      op ∈ s3.settled) := by
  constructor
  · intro s w htr hwb hwaits
    have hpre : List.find? (fun p => p.1 == w) s.waits = none := by
      rw [List.find?_eq_none]
      intro p hp
      simpa using hwaits p hp
    have h1 : queueApply s (QEvent.waitBegin w) =
        some { s with waitsBegun := s.waitsBegun ++ [w],
                      waits := s.waits ++ [(w, s.tracked)] } := by
      simp [queueApply, hwb]
    have h2 : List.find? (fun p => p.1 == w) (s.waits ++ [(w, s.tracked)]) =
        some (w, s.tracked) := by
      rw [List.find?_append, hpre]
      simp
    have h3 : (queueApply { s with
                              waitsBegun := s.waitsBegun ++ [w],
                              waits := s.waits ++ [(w, s.tracked)] }
        (QEvent.waitEnd w)).isSome = true := by
      simp [queueApply, hpre, htr]
    simp only [queueRun, h1]
    cases hq : queueApply { s with
                              waitsBegun := s.waitsBegun ++ [w],
                              waits := s.waits ++ [(w, s.tracked)] }
        (QEvent.waitEnd w) with
    | none => rw [hq] at h3; exact absurd h3 (by simp)
    | some sx => simp
  · intro t0 t1 t2 op w s3 hne1 hne2 hrun hen
    rw [show t0 ++ [QEvent.enqueue op] ++ t1 ++ [QEvent.waitBegin w] ++ t2 =
        t0 ++ (QEvent.enqueue op :: (t1 ++ (QEvent.waitBegin w :: t2))) by simp] at hrun
    rw [queueRun_append] at hrun
    cases h0 : queueRun queueInit t0 with
    | none => rw [h0] at hrun; exact absurd hrun (by simp)
    | some s0 =>
      rw [h0] at hrun
      have hrun1 : queueRun s0 (QEvent.enqueue op :: (t1 ++ (QEvent.waitBegin w :: t2))) =
          some s3 := hrun
      simp only [queueRun] at hrun1
      cases happ : queueApply s0 (QEvent.enqueue op) with
      | none => rw [happ] at hrun1; exact absurd hrun1 (by simp)
      | some s0e =>
        rw [happ] at hrun1
        have hop : op ∈ s0e.tracked := by
          simp only [queueApply] at happ
          split at happ
          · exact absurd happ (by simp)
          · obtain rfl := Option.some.inj happ
            exact List.mem_append_right _ (List.mem_singleton_self _)
        have hrun1e : queueRun s0e (t1 ++ (QEvent.waitBegin w :: t2)) = some s3 := hrun1
        rw [queueRun_append] at hrun1e
        cases h1 : queueRun s0e t1 with
        | none => rw [h1] at hrun1e; exact absurd hrun1e (by simp)
        | some s1 =>
          rw [h1] at hrun1e
          have hrun2 : queueRun s1 (QEvent.waitBegin w :: t2) = some s3 := hrun1e
          have hop1 : op ∈ s1.tracked := queueRun_tracked_pres h1 hne1 hop
          have hcoh1 : ∀ p ∈ s1.waits, p.1 ∈ s1.waitsBegun :=
            queueRun_coh h1 (queueApply_coh happ
              (queueRun_coh h0 (fun p hp => nomatch hp)))
          simp only [queueRun] at hrun2
          cases hb : queueApply s1 (QEvent.waitBegin w) with
          | none => rw [hb] at hrun2; exact absurd hrun2 (by simp)
          | some s1b =>
            rw [hb] at hrun2
            simp only [queueApply] at hb
            split at hb
            · exact absurd hb (by simp)
            · next hnotb =>
              obtain rfl := Option.some.inj hb
              have hpre : List.find? (fun p => p.1 == w) s1.waits = none := by
                rw [List.find?_eq_none]
                intro p hp
                simp only [beq_iff_eq]
                intro hcon
                exact hnotb (hcon ▸ hcoh1 p hp)
              have hfind : List.find? (fun p => p.1 == w)
                  (s1.waits ++ [(w, s1.tracked)]) = some (w, s1.tracked) := by
                rw [List.find?_append, hpre]
                simp
              obtain ⟨hb3, hf3⟩ := queueRun_waitfind_pres hrun2 hne2
                (List.mem_append_right _ (List.mem_singleton_self _)) hfind
              exact waitEnd_enabled_settled hf3 hen op hop1

/-- Witness for C4 (amended): a fresh wait on an empty queue runs to
completion at once, and after `enqueue 1; waitBegin 5; settle 1` the
enabled `waitEnd 5` certifies that operation 1 has settled. -/
theorem C4_wait_snapshot_drain_witness :
    queueRun queueInit [QEvent.waitBegin 7, QEvent.waitEnd 7] ≠ none ∧
    1 ∈ ({ queued := [1], tracked := [1], settled := [1], waitsBegun := [5],
           waits := [(5, [1])] } : QueueState).settled := by
  constructor
  · exact C4_wait_snapshot_drain.1 queueInit 7 rfl (by decide) (fun p hp => nomatch hp)
  · exact C4_wait_snapshot_drain.2 [] [] [QEvent.settle 1] 1 5
      { queued := [1], tracked := [1], settled := [1], waitsBegun := [5],
        waits := [(5, [1])] }
      (fun e he => nomatch he) (by decide) (by decide) (by decide)
